import Mathlib

/-!
Verification development for the portview ledger-report pipeline.

The JavaScript sources under `src/report/` are shallowly embedded here:
pure functions become Lean functions, finite JS numbers become exact
scaled decimals (`Dec`, an integer mantissa with a power-of-ten scale,
kept normalized), the non-finite values NaN and the infinities are
tracked by `JNum`, JS `Date` values become UTC epoch milliseconds
(`Int`) with the ambient timezone offset passed explicitly (in minutes
east of UTC), and fallible code returns `Option`/`Except`.  IEEE-754
rounding and overflow of finite arithmetic are not modelled (the
decimal arithmetic here is exact).  External libraries the code calls
(SheetJS `SSF.parse_date_code`, date-fns `parse`, the JS `Number()`
builtin) are modelled from their documented behaviour where indicated.
-/

namespace PV

/-- An exact decimal number `m / 10^s`.  All constructors in this file
normalize (strip factors of ten from the mantissa into the scale), so
two `Dec`s produced by the embedded program are equal as values iff
they are structurally equal. -/
structure Dec where
  m : Int
  s : Nat
deriving DecidableEq, Repr

/-- Strip trailing zero digits of the mantissa into the scale. -/
def Dec.strip : Int → Nat → Dec
  | m, 0 => ⟨m, 0⟩
  | m, s + 1 => if m % 10 = 0 then Dec.strip (m / 10) s else ⟨m, s + 1⟩

/-- Normalizing constructor for the value `m / 10^s`. -/
def Dec.norm (m : Int) (s : Nat) : Dec :=
  if m = 0 then ⟨0, 0⟩ else Dec.strip m s

/-- The rational value of a scaled decimal (spec-level view; the
program's own arithmetic never leaves `Dec`). -/
def Dec.toRat (d : Dec) : ℚ :=
  (d.m : ℚ) / (10 : ℚ) ^ d.s

/-- Embed an integer. -/
def Dec.ofInt (n : Int) : Dec :=
  ⟨n, 0⟩

/-- Exact decimal addition. -/
def Dec.add (a b : Dec) : Dec :=
  let s := max a.s b.s
  Dec.norm (a.m * (10 : Int) ^ (s - a.s) + b.m * (10 : Int) ^ (s - b.s)) s

/-- Negation. -/
def Dec.neg (a : Dec) : Dec :=
  ⟨-a.m, a.s⟩

/-- Is the value negative / zero?  (The sign of the value is the sign of
the mantissa.) -/
def Dec.isNeg (a : Dec) : Bool :=
  a.m < 0

/-- Multiply by `10^e` for an integer `e` (used for exponent parts). -/
def Dec.mulPow10 (a : Dec) (e : Int) : Dec :=
  if 0 ≤ e then Dec.norm (a.m * (10 : Int) ^ e.toNat) a.s
  else Dec.norm a.m (a.s + (-e).toNat)

/-- `Math.floor` of a decimal value. -/
def Dec.floorInt (a : Dec) : Int :=
  a.m / ((10 : Int) ^ a.s)

/-- Model of a JavaScript number: an exact decimal for finite values,
plus NaN and the two infinities. -/
inductive JNum where
  | fin (d : Dec)
  | nan
  | inf
  | ninf
deriving DecidableEq, Repr

/-- JS truthiness of a number: `0`, `-0` and `NaN` are falsy. -/
def jnumTruthy : JNum → Bool
  | .fin d => d.m != 0
  | .nan => false
  | .inf => true
  | .ninf => true

/-- `Number.isFinite`. -/
def jnumFinite : JNum → Bool
  | .fin _ => true
  | _ => false

/-- JS `+` on numbers (finite arithmetic is exact decimal arithmetic). -/
def jadd : JNum → JNum → JNum
  | .fin a, .fin b => .fin (a.add b)
  | .nan, _ => .nan
  | _, .nan => .nan
  | .inf, .ninf => .nan
  | .ninf, .inf => .nan
  | .inf, _ => .inf
  | _, .inf => .inf
  | .ninf, _ => .ninf
  | _, .ninf => .ninf

/-- Model of a JavaScript cell/field value as the adapters see it:
a number, a string, `null`, or `undefined`. -/
inductive JVal where
  | num (n : JNum)
  | str (s : String)
  | nullV
  | undefV
deriving DecidableEq, Repr

/-- Membership of a character in the JS `\s` regex class (also the set
trimmed by `String.prototype.trim`): ASCII whitespace, the Unicode `Zs`
category, NBSP, line/paragraph separators and the BOM. -/
def jsSpaceChar (c : Char) : Bool :=
  let n := c.toNat
  n == 0x20 || n == 0x09 || n == 0x0A || n == 0x0D || n == 0x0B || n == 0x0C ||
  n == 0xA0 || n == 0x1680 || (0x2000 ≤ n && n ≤ 0x200A) ||
  n == 0x2028 || n == 0x2029 || n == 0x202F || n == 0x205F || n == 0x3000 || n == 0xFEFF

/-- Trim JS-whitespace from both ends of a character list. -/
def jsTrimList (cs : List Char) : List Char :=
  ((cs.dropWhile jsSpaceChar).reverse.dropWhile jsSpaceChar).reverse

/-- JS `String.prototype.trim`. -/
def jsTrim (s : String) : String :=
  ⟨jsTrimList s.data⟩

/-- JS `toUpperCase` (ASCII case mapping; all strings compared by the
program are ASCII). -/
def jsToUpper (s : String) : String :=
  ⟨s.data.map Char.toUpper⟩

/-- JS `toLowerCase` (ASCII case mapping). -/
def jsToLower (s : String) : String :=
  ⟨s.data.map Char.toLower⟩

/-- Does `needle` occur as a contiguous sublist of `hay`? -/
def listContainsSub (needle : List Char) : List Char → Bool
  | [] => needle.isEmpty
  | c :: rest => needle.isPrefixOf (c :: rest) || listContainsSub needle rest

/-- JS `String.prototype.includes`. -/
def strContains (s sub : String) : Bool :=
  listContainsSub sub.data s.data

/-- JS `String.prototype.startsWith`. -/
def strStartsWith (s p : String) : Bool :=
  p.data.isPrefixOf s.data

/-- First index (in characters) at which `needle` occurs in `hay`,
scanning from position `i`; `none` when absent.  Models JS `indexOf`
(all strings involved are ASCII, so character and UTF-16 indices agree). -/
def listIndexOfSub (needle : List Char) : List Char → Nat → Option Nat
  | [], i => if needle.isEmpty then some i else none
  | c :: rest, i =>
    if needle.isPrefixOf (c :: rest) then some i
    else listIndexOfSub needle rest (i + 1)

/-- JS `String.prototype.indexOf` (as an `Option` instead of `-1`). -/
def strIndexOf (s sub : String) : Option Nat :=
  listIndexOfSub sub.data s.data 0

/-- JS `String.prototype.slice(start, end)` for non-negative arguments
(the program only uses non-negative indices). -/
def jsSlice (s : String) (start stop : Nat) : String :=
  ⟨(s.data.take stop).drop start⟩

/-- JS `String.prototype.slice(start)` to the end of the string. -/
def jsSliceFrom (s : String) (start : Nat) : String :=
  ⟨s.data.drop start⟩

/-- Numeric value of a list of decimal digit characters. -/
def natOfDigits (ds : List Char) : Nat :=
  ds.foldl (fun acc c => 10 * acc + (c.toNat - 48)) 0

/-- Value of a hexadecimal digit character (0 for non-digits; callers
check membership first). -/
def hexDigitVal (c : Char) : Nat :=
  if c.isDigit then c.toNat - 48
  else if 'a' ≤ c && c ≤ 'f' then c.toNat - 87
  else if 'A' ≤ c && c ≤ 'F' then c.toNat - 55
  else 0

/-- Is the character a hexadecimal digit? -/
def isHexDigit (c : Char) : Bool :=
  c.isDigit || ('a' ≤ c && c ≤ 'f') || ('A' ≤ c && c ≤ 'F')

/-- Numeric value of a list of digits in the given base. -/
def natOfDigitsBase (base : Nat) (ds : List Char) : Nat :=
  ds.foldl (fun acc c => base * acc + hexDigitVal c) 0

/-- Parse the decimal-literal body accepted by JS `Number()` after sign
stripping: `digits [. digits] [e|E [+|-] digits]`, where at least one
mantissa digit is required.  Returns the exact decimal value. -/
def jsDecBody (cs : List Char) : Option Dec :=
  let intPart := cs.takeWhile Char.isDigit
  let rest1 := cs.dropWhile Char.isDigit
  let (fracPart, rest2) :=
    match rest1 with
    | p :: r => if p == '.' then (r.takeWhile Char.isDigit, r.dropWhile Char.isDigit)
                else ([], rest1)
    | [] => ([], rest1)
  if intPart.isEmpty && fracPart.isEmpty then none
  else
    let mant : Dec :=
      Dec.norm (natOfDigits intPart * (10 : Int) ^ fracPart.length + natOfDigits fracPart)
        fracPart.length
    match rest2 with
    | [] => some mant
    | e :: r =>
      if e == 'e' || e == 'E' then
        let (esign, r1) :=
          match r with
          | s :: r1 => if s == '+' then ((1 : ℤ), r1)
                       else if s == '-' then ((-1 : ℤ), r1)
                       else ((1 : ℤ), r)
          | [] => ((1 : ℤ), r)
        let eds := r1.takeWhile Char.isDigit
        let r2 := r1.dropWhile Char.isDigit
        if eds.isEmpty || !r2.isEmpty then none
        else some (mant.mulPow10 (esign * (natOfDigits eds : ℤ)))
      else none

/-- Model of the JS `Number(string)` conversion: trims whitespace, accepts
the empty string as 0, `Infinity` forms, `0x`/`0o`/`0b` radix literals
(sign not allowed with a radix prefix), and signed decimal literals with
an optional exponent; everything else is NaN. -/
def jsNumFallback (z : Char) (rest0 : List Char) : JNum :=
  let (neg, body) :=
    if z == '-' then (true, rest0)
    else if z == '+' then (false, rest0)
    else (false, z :: rest0)
  if body == "Infinity".data then (if neg then .ninf else .inf)
  else
    match jsDecBody body with
    | some q => .fin (if neg then q.neg else q)
    | none => .nan

def jsNumberOfString (s : String) : JNum :=
  let cs := jsTrimList s.data
  match cs with
  | [] => .fin ⟨0, 0⟩
  | z :: rest0 =>
    match rest0 with
    | x :: rest =>
      if z == '0' then
        if x == 'x' || x == 'X' then
          if !rest.isEmpty && rest.all isHexDigit then .fin (Dec.ofInt (natOfDigitsBase 16 rest))
          else .nan
        else if x == 'o' || x == 'O' then
          if !rest.isEmpty && rest.all (fun c => '0' ≤ c && c ≤ '7') then
            .fin (Dec.ofInt (natOfDigitsBase 8 rest))
          else .nan
        else if x == 'b' || x == 'B' then
          if !rest.isEmpty && rest.all (fun c => c == '0' || c == '1') then
            .fin (Dec.ofInt (natOfDigitsBase 2 rest))
          else .nan
        else
          match jsDecBody (z :: x :: rest) with
          | some q => .fin q
          | none => .nan
      else jsNumFallback z rest0
    | [] => jsNumFallback z rest0

/-- Decimal digit characters of a natural number. -/
def natDigitsStr (n : Nat) : String :=
  toString n

/-- JS `String(n)` for a number.  Integers and (normalized) terminating
decimals are rendered exactly; the exponent forms JS uses for extreme
magnitudes are outside the model (no value in this pipeline reaches
them). -/
def jsStringOfJNum : JNum → String
  | .nan => "NaN"
  | .inf => "Infinity"
  | .ninf => "-Infinity"
  | .fin d =>
    if d.s = 0 then toString d.m
    else
      let digits := natDigitsStr d.m.natAbs
      let digits :=
        if digits.length ≤ d.s then
          String.mk (List.replicate (d.s + 1 - digits.length) '0') ++ digits
        else digits
      let intPart := jsSlice digits 0 (digits.length - d.s)
      let fracPart := jsSliceFrom digits (digits.length - d.s)
      (if d.m < 0 then "-" else "") ++ intPart ++ "." ++ fracPart

/-- Coalescing string conversion `String(v ?? '')` used throughout
`coerceLedgerRow`. -/
def jsToStringCoalesce : JVal → String
  | .num n => jsStringOfJNum n
  | .str s => s
  | .nullV => ""
  | .undefV => ""

/-- Core of `parseAmount` (fmsecLedgerCsv.js) on the string path:
trim, recognise the lone-dash blank sentinel (after stripping the JS
whitespace class plus figure space and narrow no-break space), treat a
fully parenthesised value as negative, strip parentheses and
thousands-separating commas, and convert with `Number()`. -/
def parseAmountStr (s : String) : Option Dec :=
  let raw := jsTrimList s.data
  if raw.isEmpty then none
  else
    let noSpaces := raw.filter (fun c => !jsSpaceChar c)
    let looksBlank := raw == ['-'] || noSpaces == ['-']
    if looksBlank then none
    else
      let isParenNegative :=
        noSpaces.head? == some '(' && noSpaces.getLast? == some ')'
      let stripped := noSpaces.filter (fun c => !(c == '(' || c == ')' || c == ','))
      if stripped.isEmpty then none
      else
        match jsNumberOfString ⟨stripped⟩ with
        | .fin q => some (if isParenNegative then q.neg else q)
        | _ => none

/-- `parseAmount` (fmsecLedgerCsv.js:371-391): `null`/`undefined` and
non-finite numbers yield `null`; finite numbers are returned as-is;
strings go through `parseAmountStr`.  (A non-finite number stringifies to
`NaN`/`Infinity`/`-Infinity`, which `parseAmountStr` maps to `null`.) -/
def parseAmount : JVal → Option Dec
  | .nullV => none
  | .undefV => none
  | .num (.fin q) => some q
  | .num n => parseAmountStr (jsStringOfJNum n)
  | .str s => parseAmountStr s

/-- Number of days from 1970-01-01 to the proleptic-Gregorian civil date
`y-m-d` (m is 1-based; d may exceed the month length, in which case the
date rolls over exactly as JS `Date.UTC` does).  Howard Hinnant's
`days_from_civil` algorithm, which is the arithmetic specified for
ECMAScript dates. -/
def daysFromCivil (y m d : Int) : Int :=
  let y1 := if m ≤ 2 then y - 1 else y
  let era := y1 / 400
  let yoe := y1 - era * 400
  let mp := (m + 9) % 12
  let doy := (153 * mp + 2) / 5 + d - 1
  let doe := yoe * 365 + yoe / 4 - yoe / 100 + doy
  era * 146097 + doe - 719468

/-- Civil date `(y, m, d)` of the day `z` days after 1970-01-01
(Hinnant's `civil_from_days`). -/
def civilFromDays (z : Int) : Int × Int × Int :=
  let z1 := z + 719468
  let era := z1 / 146097
  let doe := z1 - era * 146097
  let yoe := (doe - doe / 1460 + doe / 36524 - doe / 146096) / 365
  let y := yoe + era * 400
  let doy := doe - (365 * yoe + yoe / 4 - yoe / 100)
  let mp := (5 * doy + 2) / 153
  let d := doy - (153 * mp + 2) / 5 + 1
  let mo := if mp < 10 then mp + 3 else mp - 9
  (if mo ≤ 2 then y + 1 else y, mo, d)

/-- `Date.UTC(y, m-1, d, hour)` as epoch milliseconds (m is 1-based
here). -/
def dateUtcMs (y m d hour : Int) : Int :=
  86400000 * daysFromCivil y m d + hour * 3600000

/-- Civil date of an epoch-milliseconds instant in UTC (the fields
`toISOString` renders). -/
def msToUtcCivil (ms : Int) : Int × Int × Int :=
  civilFromDays (ms / 86400000)

/-- Civil date of an epoch-milliseconds instant in a fixed-offset local
timezone `tz` minutes east of UTC (the fields `getFullYear`/`getMonth`
/`getDate` render). -/
def msToLocalCivil (tz ms : Int) : Int × Int × Int :=
  civilFromDays ((ms + tz * 60000) / 86400000)

/-- JS `Date.prototype.getFullYear` under a fixed-offset timezone. -/
def getFullYearLocal (tz ms : Int) : Int :=
  (msToLocalCivil tz ms).1

/-- JS `Date.prototype.getMonth` (0-based) under a fixed-offset
timezone. -/
def getMonthIdxLocal (tz ms : Int) : Int :=
  (msToLocalCivil tz ms).2.1 - 1

/-- Modelled from the external SheetJS library: `XLSX.SSF.parse_date_code`
maps a spreadsheet date serial to a civil date, with serial 1 being
1900-01-01 and the classic fake leap day 1900-02-29 at serial 60
(serials above 60 are shifted down by one before conversion); negative
serials are rejected.  Only the `y`/`m`/`d` components the program reads
are modelled. -/
def ssfParseDateCode (v : Dec) : Option (Int × Int × Int) :=
  let date := v.floorInt
  if date < 0 then none
  else if date = 60 then some (1900, 2, 29)
  else
    let adj := if date > 60 then date - 1 else date
    some (civilFromDays (adj - 25568))

/-- Number of days in a month of the proleptic Gregorian calendar. -/
def daysInMonth (y m : Int) : Int :=
  if m = 2 then
    if y % 4 = 0 ∧ (y % 100 ≠ 0 ∨ y % 400 = 0) then 29 else 28
  else if m = 4 ∨ m = 6 ∨ m = 9 ∨ m = 11 then 30
  else 31

/-- Modelled from the external date-fns library: `parse(raw, pattern, ref)`
for the numeric day/month/year patterns the program uses.  The whole
string must match `n sep n sep nnnn` with the two-digit-exact flag
controlling whether the day and month fields must be exactly two digits
(`dd`/`MM`) or one to two digits (`d`/`M`); the month must be 1-12 and
the day must fit the month, else the parse is invalid.  Returns the
civil date; the resulting JS `Date` is local midnight of that date. -/
def dateFnsParseDmy (sep : Char) (dayFirst exactTwo : Bool) (raw : String) :
    Option (Int × Int × Int) :=
  match raw.data.splitOn sep with
  | [a, b, c] =>
    let lenOK : List Char → Bool := fun p =>
      if exactTwo then p.length == 2 else p.length == 1 || p.length == 2
    if lenOK a && lenOK b && c.length == 4 &&
        a.all Char.isDigit && b.all Char.isDigit && c.all Char.isDigit then
      let d : Int := if dayFirst then natOfDigits a else natOfDigits b
      let mo : Int := if dayFirst then natOfDigits b else natOfDigits a
      let y : Int := natOfDigits c
      if 1 ≤ mo ∧ mo ≤ 12 ∧ 1 ≤ d ∧ d ≤ daysInMonth y mo then some (y, mo, d)
      else none
    else none
  | _ => none

/-- The ordered pattern list of `parseLedgerDate`:
`['d/M/yyyy', 'dd/MM/yyyy', 'M/d/yyyy', 'MM/dd/yyyy', 'd-M-yyyy',
'dd-MM-yyyy']`, each given as (separator, day-first?, exactly-two?). -/
def ledgerDatePatterns : List (Char × Bool × Bool) :=
  [('/', true, false), ('/', true, true), ('/', false, false), ('/', false, true),
   ('-', true, false), ('-', true, true)]

/-- Try the ledger date patterns in order; first success wins. -/
def parseLedgerDateText (raw : String) : Option (Int × Int × Int) :=
  (ledgerDatePatterns.filterMap
    (fun p => dateFnsParseDmy p.1 p.2.1 p.2.2 raw)).head?

/-- Does the raw string match the numeric-serial shape `/^\d+(\.\d+)?$/`? -/
def isNumericSerialShape (cs : List Char) : Bool :=
  let intPart := cs.takeWhile Char.isDigit
  let rest := cs.dropWhile Char.isDigit
  !intPart.isEmpty &&
    (rest.isEmpty ||
      (rest.head? == some '.' && !rest.tail.isEmpty && rest.tail.all Char.isDigit))

/-- Value of `parseLedgerDate` input: a number, a string, an already
constructed `Date` (epoch ms; the pipeline only builds valid dates), or
a nullish value. -/
inductive LVal where
  | num (n : JNum)
  | str (s : String)
  | dateV (ms : Int)
  | nullV
  | undefV
deriving DecidableEq, Repr

/-- JS falsiness of a `parseLedgerDate` input (`if (!value) return null`). -/
def lvalFalsy : LVal → Bool
  | .num n => !jnumTruthy n
  | .str s => s.isEmpty
  | .dateV _ => false
  | .nullV => true
  | .undefV => true

/-- View an `LVal` as a `JVal` for stringification (`String(value)`). -/
def lvalToJVal : LVal → JVal
  | .num n => .num n
  | .str s => .str s
  | .dateV _ => .str ""
  | .nullV => .nullV
  | .undefV => .undefV

/-- The serial-number branch shared by the numeric and numeric-string
paths of `parseLedgerDate`: on success the result is UTC noon of the
civil date from `SSF.parse_date_code` (the `dc.y && dc.m && dc.d`
truthiness test is the `≠ 0` check). -/
def serialToUtcNoon (v : Dec) : Option Int :=
  match ssfParseDateCode v with
  | some (y, mo, d) =>
    if y ≠ 0 ∧ mo ≠ 0 ∧ d ≠ 0 then some (dateUtcMs y mo d 12) else none
  | none => none

/-- `parseLedgerDate` (fmsecLedgerCsv.js:393-436), under a fixed-offset
timezone `tz` (minutes east of UTC): falsy inputs and unparseable text
yield `null`; a valid `Date` passes through; a finite number (or a
numeric string) is a spreadsheet serial resolved to UTC noon; otherwise
the raw text is tried against the ordered date-fns patterns, a success
being local midnight of the parsed civil date. -/
def parseLedgerDate (tz : Int) (v : LVal) : Option Int :=
  if lvalFalsy v then none
  else
    match v with
    | .dateV ms => some ms
    | _ =>
      let serialResult :=
        match v with
        | .num (.fin q) => serialToUtcNoon q
        | _ => none
      match serialResult with
      | some ms => some ms
      | none =>
        let raw := jsTrim (jsToStringCoalesce (lvalToJVal v))
        if raw.isEmpty then none
        else
          let serialStrResult :=
            if isNumericSerialShape raw.data then
              match jsNumberOfString raw with
              | .fin q => serialToUtcNoon q
              | _ => none
            else none
          match serialStrResult with
          | some ms => some ms
          | none =>
            match parseLedgerDateText raw with
            | some (y, mo, d) => some (86400000 * daysFromCivil y mo d - tz * 60000)
            | none => none

example : parseAmount (.str "(1,234.56)") = some ⟨-123456, 2⟩ := by decide
example : parseAmount (.str "-") = none := by decide
example : parseAmount (.str "") = none := by decide
example : parseAmount (.num (.fin ⟨1000, 0⟩)) = some ⟨1000, 0⟩ := by decide
example : parseAmount (.str " 1 234.50 ") = some ⟨12345, 1⟩ := by decide
example : parseAmount (.num .nan) = none := by decide
example : parseAmount (.num .inf) = none := by decide
example : Dec.toRat ⟨-123456, 2⟩ = -1234.56 := by norm_num [Dec.toRat]

/-- `parsePdfDateMmDdYyyy` (fmsecLedgerPdf.js:70-82): only a strict
`MM/DD/YYYY` two-digit/two-digit/four-digit pattern is accepted, read as
month/day/year with generic range checks (month 1-12, day 1-31), and
anchored at UTC noon. -/
def parsePdfDateMmDdYyyy (value : String) : Option Int :=
  let s := jsTrim value
  match s.data with
  | [m1, m2, '/', d1, d2, '/', y1, y2, y3, y4] =>
    if [m1, m2, d1, d2, y1, y2, y3, y4].all Char.isDigit then
      let month : Int := natOfDigits [m1, m2]
      let day : Int := natOfDigits [d1, d2]
      let year : Int := natOfDigits [y1, y2, y3, y4]
      if month < 1 ∨ month > 12 then none
      else if day < 1 ∨ day > 31 then none
      else some (dateUtcMs year month day 12)
    else none
  | _ => none

example : parseLedgerDateText "7/3/2024" = some (2024, 3, 7) := by decide
example : parseLedgerDateText "01/16/2024" = some (2024, 1, 16) := by decide
example : daysFromCivil 2024 1 16 = 19738 := by decide
example : serialToUtcNoon ⟨45307, 0⟩ = some (19738 * 86400000 + 43200000) := by decide
example : msToUtcCivil (19738 * 86400000 + 43200000) = (2024, 1, 16) := by decide
example : parsePdfDateMmDdYyyy "07/03/2024" = some (dateUtcMs 2024 7 3 12) := by decide
example : parsePdfDateMmDdYyyy "7/3/2024" = none := by decide

/-- The canonical normalized transaction record all adapters produce
(CanonicalRow in the spec).  Dates are epoch milliseconds (`none` for
`null`); amounts are `parseAmount` results re-wrapped as JS numbers so
that the aggregator can also be analysed on arbitrary (NaN/infinite)
inputs. -/
structure LedgerRow where
  CD : String
  NUMBER : String
  DATE : Option Int
  DUE_DATE : Option Int
  PARTICULARS : String
  SECURITY : String
  NO_OF_SHARES : Option JNum
  CURRENCY : String
  UNIT_PRICE : Option JNum
  FX_AMT : Option JNum
  FX_RUNNING_BAL : Option JNum
  PHP_DEBIT : Option JNum
  PHP_CREDIT : Option JNum
  PHP_RUNNING_BAL : Option JNum
deriving DecidableEq, Repr

/-- The property names of the JS object literal returned by
`coerceLedgerRow` / `parseTransactionBlock` (used to model the `in`
checks of `validateFmsecLedgerHeaders`). -/
def ledgerRowObjectKeys : List String :=
  ["CD", "NUMBER", "DATE", "DUE_DATE", "PARTICULARS", "SECURITY", "NO_OF_SHARES",
   "CURRENCY", "UNIT_PRICE", "FX_AMT", "FX_RUNNING_BAL", "PHP_DEBIT", "PHP_CREDIT",
   "PHP_RUNNING_BAL"]

/-- Collapse runs of characters satisfying `p` into a single `rep`
character (models `replace(/X+/g, rep)` for a character class `X`).
The boolean argument tracks whether the previous character was in a
run. -/
def collapseRuns (p : Char → Bool) (rep : Char) : Bool → List Char → List Char
  | _, [] => []
  | prevRun, c :: rest =>
    if p c then
      if prevRun then collapseRuns p rep true rest
      else rep :: collapseRuns p rep true rest
    else c :: collapseRuns p rep false rest

/-- `normalizeHeaderCell` (fmsecLedgerCsv.js:354-369): trim, collapse
internal whitespace, upper-case, special-case the two letter-spaced
FMSEC header variants, then strip periods, turn whitespace runs into
underscores and collapse repeated underscores. -/
def normalizeHeaderCell (v : JVal) : String :=
  let raw := jsTrim (jsToStringCoalesce v)
  if raw.isEmpty then ""
  else
    let collapsed : String := ⟨collapseRuns jsSpaceChar ' ' false raw.data⟩
    let upper := jsToUpper collapsed
    if upper == "PHP D E B I T" then "PHP_DEBIT"
    else if upper == "PHP C R E D I T" then "PHP_CREDIT"
    else
      let noDots := upper.data.filter (fun c => !(c == '.'))
      ⟨collapseRuns (fun c => c == '_') '_' false
        (collapseRuns jsSpaceChar '_' false noDots)⟩

/-- The empty row object. -/
def objEmpty : String → Option JVal :=
  fun _ => none

/-- JS property assignment `obj[key] = v` (later assignments win). -/
def objSet (o : String → Option JVal) (k : String) (v : JVal) : String → Option JVal :=
  fun x => if x = k then some v else o x

/-- Build the row object of `parseLedgerRowsFromWorksheet` /
`loadFmsecLedgerRowsFromCsvText`: for each header column, assign the
cell at that position (JS `undefined` past the end of the row), skipping
empty header names. -/
def buildRowObj (headers : List String) (cells : List JVal) : String → Option JVal :=
  (List.range headers.length).foldl
    (fun o c =>
      let key := headers.getD c ""
      if key = "" then o else objSet o key (cells.getD c .undefV))
    objEmpty

/-- Is the value JS-nullish (so that `??` falls through)? -/
def jvalNullish : JVal → Bool
  | .nullV => true
  | .undefV => true
  | _ => false

/-- JS `a ?? b`. -/
def jvalCoalesce (a b : JVal) : JVal :=
  if jvalNullish a then b else a

/-- View a `JVal` cell as a `parseLedgerDate` input. -/
def jvalToLVal : JVal → LVal
  | .num n => .num n
  | .str s => .str s
  | .nullV => .nullV
  | .undefV => .undefV

/-- `coerceLedgerRow` (fmsecLedgerCsv.js:450-469): coerce a raw header-keyed
row object into the canonical row via `parseLedgerDate` / `parseAmount`
per field. -/
def coerceLedgerRow (tz : Int) (obj : String → Option JVal) : LedgerRow :=
  let get : String → JVal := fun k => (obj k).getD .undefV
  { CD := jsTrim (jsToStringCoalesce (get "CD"))
    NUMBER := jsTrim (jsToStringCoalesce (get "NUMBER"))
    DATE := parseLedgerDate tz (jvalToLVal (get "DATE"))
    DUE_DATE := parseLedgerDate tz (jvalToLVal (get "DUE_DATE"))
    PARTICULARS := jsTrim (jsToStringCoalesce (get "PARTICULARS"))
    SECURITY := jsTrim (jsToStringCoalesce (get "SECURITY"))
    NO_OF_SHARES :=
      (parseAmount (jvalCoalesce (get "NO._OF_SHARES")
        (jvalCoalesce (get "NO_OF_SHARES") (get "NO_Of_SHARES")))).map .fin
    CURRENCY := jsTrim (jsToStringCoalesce (get "CURRENCY"))
    UNIT_PRICE := (parseAmount (get "UNIT_PRICE")).map .fin
    FX_AMT := (parseAmount (get "FX_AMT")).map .fin
    FX_RUNNING_BAL := (parseAmount (get "FX_RUNNING_BAL")).map .fin
    PHP_DEBIT := (parseAmount (get "PHP_DEBIT")).map .fin
    PHP_CREDIT := (parseAmount (get "PHP_CREDIT")).map .fin
    PHP_RUNNING_BAL := (parseAmount (get "PHP_RUNNING_BAL")).map .fin }

/-- Does a worksheet cell satisfy the header-row marker test
`String(c ?? '').trim().toUpperCase() === 'CD'`? -/
def cellIsCdMarker (c : JVal) : Bool :=
  jsToUpper (jsTrim (jsToStringCoalesce c)) == "CD"

/-- Body of `parseLedgerRowsFromWorksheet` (fmsecLedgerCsv.js:471-504,
data-row loop): map every row after the header through `coerceLedgerRow`
keyed by the normalized header names, skipping empty rows and rows whose
`CD` cell is blank.  (The sheet-of-cells input is what the external
SheetJS `sheet_to_json(ws, \x7bheader: 1, raw: true\x7d)` call produces.) -/
def worksheetDataRows (tz : Int) (headerRow : List String) (rest : List (List JVal)) :
    List LedgerRow :=
  rest.filterMap (fun r =>
    if r.isEmpty then none
    else
      let obj := buildRowObj headerRow r
      if (jsTrim (jsToStringCoalesce ((obj "CD").getD .undefV))).isEmpty then none
      else some (coerceLedgerRow tz obj))

/-- `parseLedgerRowsFromWorksheet`, header-location part: the header is
the first row containing a cell equal to `CD` after trim/upper-case. -/
def parseLedgerRowsFromWorksheet (tz : Int) (rows : List (List JVal)) :
    Except String (List LedgerRow) :=
  if rows.isEmpty then .ok []
  else
    match rows.findIdx? (fun r => r.any cellIsCdMarker) with
    | none => .error "Could not find header row (CD, NUMBER, DATE, ...) in CSV"
    | some headerIndex =>
      .ok (worksheetDataRows tz ((rows.getD headerIndex []).map normalizeHeaderCell)
        (rows.drop (headerIndex + 1)))

/-- Field splitter of `parseCsvLine` (fmsecLedgerCsv.js:313-352): comma
separated, double-quote delimited fields, embedded quotes escaped by
doubling. -/
def parseCsvLineAux : List Char → Bool → List Char → List (List Char)
  | [], _, cur => [cur.reverse]
  | '"' :: '"' :: rest, true, cur => parseCsvLineAux rest true ('"' :: cur)
  | '"' :: rest, true, cur => parseCsvLineAux rest false cur
  | ch :: rest, true, cur => parseCsvLineAux rest true (ch :: cur)
  | ',' :: rest, false, cur => cur.reverse :: parseCsvLineAux rest false []
  | '"' :: rest, false, cur => parseCsvLineAux rest true cur
  | ch :: rest, false, cur => parseCsvLineAux rest false (ch :: cur)

/-- `parseCsvLine`: split one delimited-text line into fields. -/
def parseCsvLine (line : String) : List String :=
  (parseCsvLineAux line.data false []).map String.mk

/-- Split text on `/\r?\n/` (a `\r` immediately before the `\n` is
consumed with it; a lone `\r` stays in its line). -/
def splitLinesAux : List Char → List Char → List (List Char)
  | [], acc => [acc.reverse]
  | '\n' :: rest, acc =>
    (if acc.head? == some '\r' then acc.tail else acc).reverse :: splitLinesAux rest []
  | c :: rest, acc => splitLinesAux rest (c :: acc)

/-- JS `text.split(/\r?\n/)`. -/
def splitLines (s : String) : List String :=
  (splitLinesAux s.data []).map String.mk

/-- Body of `loadFmsecLedgerRowsFromCsvText` (fmsecLedgerCsv.js:506-533,
data-row loop): split each line after the header with the quote-aware
splitter and coerce it, skipping rows whose `CD` field is blank. -/
def csvDataRows (tz : Int) (normalizedHeaders : List String) (rest : List String) :
    List LedgerRow :=
  rest.filterMap (fun line =>
    let obj := buildRowObj normalizedHeaders ((parseCsvLine line).map .str)
    if (jsTrim (jsToStringCoalesce ((obj "CD").getD .undefV))).isEmpty then none
    else some (coerceLedgerRow tz obj))

/-- The header-locating predicate of the delimited-text adapter: the
trimmed, upper-cased line must start with the literal
`CD,NUMBER,DATE,`. -/
def csvHeaderPred (l : String) : Bool :=
  strStartsWith (jsToUpper (jsTrim l)) "CD,NUMBER,DATE,"

/-- `loadFmsecLedgerRowsFromCsvText` after line splitting and blank-line
filtering. -/
def loadCsvFromLines (tz : Int) (lines : List String) : Except String (List LedgerRow) :=
  match lines.findIdx? csvHeaderPred with
  | none => .error "Could not find header row (CD, NUMBER, DATE, ...) in CSV"
  | some headerLineIndex =>
    .ok (csvDataRows tz
      ((parseCsvLine (lines.getD headerLineIndex "")).map (fun c => normalizeHeaderCell (.str c)))
      (lines.drop (headerLineIndex + 1)))

/-- `loadFmsecLedgerRowsFromCsvText` (fmsecLedgerCsv.js:506-533): split
into lines, keep the non-blank ones, locate the header with
`csvHeaderPred`, then coerce the remaining lines. -/
def loadFmsecLedgerRowsFromCsvText (tz : Int) (csvText : String) :
    Except String (List LedgerRow) :=
  loadCsvFromLines tz ((splitLines csvText).filter (fun l => !(jsTrim l).isEmpty))

/-- The columns `validateFmsecLedgerHeaders` requires. -/
def ledgerRequiredColumns : List String :=
  ["CD", "DATE", "PARTICULARS", "PHP_DEBIT", "PHP_CREDIT"]

/-- `validateFmsecLedgerHeaders` (fmsecLedgerCsv.js:535-549), modelled over
the rows' JS-object key sets (the function only reads `rows.length` and
`k in rows[0]`): an empty row list is rejected, and the required columns
absent from the first row are reported by name. -/
def validateFmsecLedgerHeaders (rowKeys : List (List String)) : Except String Unit :=
  match rowKeys with
  | [] => .error "No ledger rows found"
  | sample :: _ =>
    let missing := ledgerRequiredColumns.filter (fun k => !sample.contains k)
    if missing.isEmpty then .ok ()
    else .error ("Missing required columns: " ++ String.intercalate ", " missing)

/-- JS `filename.lastIndexOf('.')` position of the last dot. -/
def strLastIndexOfChar (s : String) (c : Char) : Option Nat :=
  match s.data.reverse.findIdx? (fun x => x == c) with
  | none => none
  | some j => some (s.data.length - 1 - j)

/-- `getExtension` (uploadedLedger.js:9-13). -/
def getExtension (filename : String) : String :=
  match strLastIndexOfChar filename '.' with
  | none => ""
  | some idx => jsToLower (jsSliceFrom filename (idx + 1))

/-- Model of `Buffer.prototype.toString('utf8')` restricted to ASCII
bytes (every byte ≥ 0x80 becomes U+FFFD; the multi-byte sequences of
real UTF-8 are outside the model, and no claim input uses them). -/
def utf8DecodeAscii (bytes : List Nat) : String :=
  ⟨bytes.map (fun b => if b < 128 then Char.ofNat b else Char.ofNat 0xFFFD)⟩

/-- `loadFmsecLedgerRowsFromBuffer` (uploadedLedger.js:34-56).  The
external SheetJS workbook decode (`XLSX.read` + `pickFirstSheet` +
`sheet_to_json`) is abstracted as the `xlsxRead` argument.  Dispatch is
by lower-cased filename extension; empty byte input is rejected first;
after either adapter, `validateFmsecLedgerHeaders` runs on the produced
rows (whose objects always carry `ledgerRowObjectKeys`). -/
def loadFmsecLedgerRowsFromBuffer
    (xlsxRead : List Nat → Except String (List (List JVal)))
    (tz : Int) (filename : String) (buffer : List Nat) :
    Except String (List LedgerRow) :=
  let ext := getExtension filename
  if buffer.isEmpty then .error "Missing file data"
  else if ext == "csv" then do
    let rows ← loadFmsecLedgerRowsFromCsvText tz (utf8DecodeAscii buffer)
    let _ ← validateFmsecLedgerHeaders (rows.map (fun _ => ledgerRowObjectKeys))
    pure rows
  else if ext == "xlsx" || ext == "xls" then do
    let cells ← xlsxRead buffer
    let rows ← parseLedgerRowsFromWorksheet tz cells
    let _ ← validateFmsecLedgerHeaders (rows.map (fun _ => ledgerRowObjectKeys))
    pure rows
  else .error "Unsupported file type. Upload a .csv or .xlsx"

/-- `MONTH_LABELS` (monthlyCashflow.js:3). -/
def MONTH_LABELS : List String :=
  ["Jan", "Feb", "Mar", "Apr", "May", "Jun", "Jul", "Aug", "Sep", "Oct", "Nov", "Dec"]

/-- One aggregated month bucket.  The money fields are JS numbers so that
the aggregation can be analysed on arbitrary inputs. -/
structure MonthRow where
  month : String
  deposit : JNum
  withdraw : JNum
  dividends : JNum
deriving DecidableEq, Repr

/-- `initMonthRow` (monthlyCashflow.js:5-7). -/
def initMonthRow (monthIndex : Nat) : MonthRow :=
  { month := MONTH_LABELS.getD monthIndex (toString (monthIndex + 1))
    deposit := .fin ⟨0, 0⟩
    withdraw := .fin ⟨0, 0⟩
    dividends := .fin ⟨0, 0⟩ }

/-- `addMoney` (monthlyCashflow.js:9-13): a falsy (zero or NaN) or
non-finite contribution yields `undefined` (`none`), which every caller
turns into "leave the field unchanged" via `?? current.field`. -/
def addMoney (target amount : JNum) : Option JNum :=
  if !jnumTruthy amount || !jnumFinite amount then none
  else some (jadd target amount)

/-- `isDividendRow` (fmsecLedgerCsv.js:438-443). -/
def isDividendRow (row : LedgerRow) : Bool :=
  let cd := jsToUpper (jsTrim row.CD)
  let particulars := jsToLower row.PARTICULARS
  cd == "CM" &&
    (strContains particulars "cash dividend" || strContains particulars "coupon payment")

/-- `isTradeRow` (fmsecLedgerCsv.js:445-448). -/
def isTradeRow (row : LedgerRow) : Bool :=
  let cd := jsToUpper (jsTrim row.CD)
  cd == "BI" || cd == "SI"

/-- Pointwise update of the `byMonth` map (JS `Map.set`). -/
def mapSet (st : Nat → Option MonthRow) (k : Nat) (v : MonthRow) : Nat → Option MonthRow :=
  fun i => if i = k then some v else st i

/-- JS truthiness of the `year` option (`if (year)`); a caller passing
year 0 behaves as if no year were given. -/
def yearTruthy : Option Int → Bool
  | some y => y != 0
  | none => false

/-- The zero JS number. -/
def jzero : JNum :=
  .fin ⟨0, 0⟩

/-- The loop body of `computeMonthlyCashflow` (monthlyCashflow.js:21-54)
for one row: rows without a valid date, or outside a truthy target
year, are skipped; dividend rows add their credit to `dividends`; trade
rows contribute nothing; remaining rows add their credit to `deposit`
when they are `OR` + `FUTURE TRANSACTION` rows and always add their
debit to `withdraw`.  (The call sites always use the default `DATE`
date field, which is what `row.DATE` models.) -/
def cashStep (tz : Int) (year : Option Int) (st : Nat → Option MonthRow)
    (row : LedgerRow) : Nat → Option MonthRow :=
  match row.DATE with
  | none => st
  | some ms =>
    if yearTruthy year && (getFullYearLocal tz ms != year.getD 0) then st
    else
      let monthIndex := (getMonthIdxLocal tz ms).toNat
      let current := (st monthIndex).getD (initMonthRow monthIndex)
      if isDividendRow row then
        mapSet st monthIndex
          { current with
            dividends :=
              (addMoney current.dividends (row.PHP_CREDIT.getD jzero)).getD current.dividends }
      else if isTradeRow row then
        mapSet st monthIndex current
      else
        let cd := jsToUpper (jsTrim row.CD)
        let particulars := jsToUpper (jsTrim row.PARTICULARS)
        let isFutureTransactions := cd == "OR" && strStartsWith particulars "FUTURE TRANSACTION"
        let current1 :=
          if isFutureTransactions then
            { current with
              deposit :=
                (addMoney current.deposit (row.PHP_CREDIT.getD jzero)).getD current.deposit }
          else current
        let current2 :=
          { current1 with
            withdraw :=
              (addMoney current1.withdraw (row.PHP_DEBIT.getD jzero)).getD current1.withdraw }
        mapSet st monthIndex current2

/-- `computeMonthlyCashflow` (monthlyCashflow.js:15-68).  The JS `Map` is
modelled as a function from month index to bucket; the final
`Array.from(map.entries()).sort(...)` traversal in the no-year case is
the ascending traversal of the 12 possible keys (month indices are
unique, so numeric key sort gives exactly this order). -/
def computeMonthlyCashflow (tz : Int) (rows : List LedgerRow) (year : Option Int) :
    List MonthRow :=
  let byMonth := rows.foldl (cashStep tz year) (fun _ => none)
  if yearTruthy year then
    (List.range 12).map (fun m => (byMonth m).getD (initMonthRow m))
  else
    (List.range 12).filterMap byMonth

/-- JS `\w` word character (ASCII letters, digits, underscore). -/
def isWordChar (c : Char) : Bool :=
  c.isAlpha || c.isDigit || c == '_'

/-- Consume a literal (already upper-cased) needle case-insensitively;
return the rest on success. -/
def matchLitCI : List Char → List Char → Option (List Char)
  | [], cs => some cs
  | _ :: _, [] => none
  | l :: ls, c :: rest => if c.toUpper == l then matchLitCI ls rest else none

/-- Search `/\bPHP\b/i`: the three letters with non-word characters (or
the string ends) on both sides.  The first argument is the character
just before the current position. -/
def hasPhpSearch : Option Char → List Char → Bool
  | _, [] => false
  | prev, c :: rest =>
    ((match prev with | some pc => !isWordChar pc | none => true) &&
      (match matchLitCI "PHP".data (c :: rest) with
        | some after =>
          match after.head? with
          | some nc => !isWordChar nc
          | none => true
        | none => false)) ||
    hasPhpSearch (some c) rest

/-- Does the line contain the currency marker `/\bPHP\b/i`? -/
def hasPhpMarker (line : String) : Bool :=
  hasPhpSearch none line.data

/-- Consume a sequence of letters separated by `\s*` gaps
(case-insensitively); the fuel is an upper bound on the characters
consumed (the input length suffices). -/
def lettersGapsAux : Nat → List Char → List Char → Option (List Char)
  | _, [], cs => some cs
  | 0, _ :: _, _ => none
  | fuel + 1, l :: ls, cs =>
    match cs with
    | [] => none
    | c :: rest =>
      if c.toUpper == l then
        match ls with
        | [] => some rest
        | _ :: _ => lettersGapsAux fuel ls (rest.dropWhile jsSpaceChar)
      else none

/-- Search `/\bL\s*E\s*G\s*E\s*N\s*D\b/i`. -/
def legendSearchAux : Option Char → List Char → Bool
  | _, [] => false
  | prev, c :: rest =>
    ((match prev with | some pc => !isWordChar pc | none => true) &&
      (match lettersGapsAux (c :: rest).length ['L', 'E', 'G', 'E', 'N', 'D'] (c :: rest) with
        | some after =>
          match after.head? with
          | some nc => !isWordChar nc
          | none => true
        | none => false)) ||
    legendSearchAux (some c) rest

/-- Apply a suffix test at every position of the list (regex search). -/
def searchAnySuffix (f : List Char → Bool) : List Char → Bool
  | [] => f []
  | c :: rest => f (c :: rest) || searchAnySuffix f rest

/-- Match `/ENDING\s+SECURITY\s+POSITION/i` at the head of the list. -/
def endingBannerAt (cs : List Char) : Bool :=
  match matchLitCI "ENDING".data cs with
  | some r1 =>
    let sp1 := r1.takeWhile jsSpaceChar
    if sp1.isEmpty then false
    else
      match matchLitCI "SECURITY".data (r1.drop sp1.length) with
      | some r2 =>
        let sp2 := r2.takeWhile jsSpaceChar
        if sp2.isEmpty then false
        else (matchLitCI "POSITION".data (r2.drop sp2.length)).isSome
      | none => false
  | none => false

/-- `shouldEndTransactionSection` (fmsecLedgerPdf.js:235-242): the
ending-position banner, the (possibly letter-spaced) legend banner, or
the computer-generated-statement footer. -/
def shouldEndTransactionSection (line : String) : Bool :=
  searchAnySuffix endingBannerAt line.data ||
  legendSearchAux none line.data ||
  searchAnySuffix
    (fun cs => (matchLitCI "THIS IS A COMPUTER GENERATED STATEMENT".data cs).isSome)
    line.data

/-- `isTransactionStartLine` (fmsecLedgerPdf.js:66-68): the line matches
`/^\s*\d{2}\/\d{2}\/\d{4}\s+\S+/`. -/
def isTransactionStartLine (line : String) : Bool :=
  match line.data.dropWhile jsSpaceChar with
  | d1 :: d2 :: '/' :: d3 :: d4 :: '/' :: y1 :: y2 :: y3 :: y4 :: rest =>
    [d1, d2, d3, d4, y1, y2, y3, y4].all Char.isDigit &&
    !(rest.takeWhile jsSpaceChar).isEmpty &&
    !(rest.dropWhile jsSpaceChar).isEmpty
  | _ => false

/-- First-line decomposition of `parseTransactionBlock`:
`/^\s*(\d{2}\/\d{2}\/\d{4})\s+(\S+)\s*(.*)$/` as (date, reference,
remainder). -/
def parseTxFirstLine (line : String) : Option (String × String × String) :=
  match line.data.dropWhile jsSpaceChar with
  | d1 :: d2 :: '/' :: d3 :: d4 :: '/' :: y1 :: y2 :: y3 :: y4 :: rest =>
    if [d1, d2, d3, d4, y1, y2, y3, y4].all Char.isDigit then
      let sp := rest.takeWhile jsSpaceChar
      if sp.isEmpty then none
      else
        let afterSp := rest.drop sp.length
        let ref := afterSp.takeWhile (fun c => !jsSpaceChar c)
        if ref.isEmpty then none
        else
          let afterRef := afterSp.drop ref.length
          let remainder := afterRef.dropWhile jsSpaceChar
          some (⟨[d1, d2, '/', d3, d4, '/', y1, y2, y3, y4]⟩, ⟨ref⟩, ⟨remainder⟩)
    else none
  | _ => none

/-- The strict-reference pattern `/^([A-Z]{1,6})-(\d+)$/`. -/
def refRegexMatch (cs : List Char) : Option (String × String) :=
  let letters := cs.takeWhile (fun c => 'A' ≤ c && c ≤ 'Z')
  let rest := cs.drop letters.length
  if 1 ≤ letters.length ∧ letters.length ≤ 6 then
    match rest with
    | '-' :: ds =>
      if !ds.isEmpty && ds.all Char.isDigit then some (⟨letters⟩, ⟨ds⟩) else none
    | _ => none
  else none

/-- `parseReference` (fmsecLedgerPdf.js:50-64): split a reference token
into the transaction code and the numeric id at the first hyphen (with
a fast path for the strict `CODE-digits` shape). -/
def parseReference (ref : String) : String × String :=
  let raw := jsTrim ref
  if raw.isEmpty then ("", "")
  else
    match refRegexMatch raw.data with
    | some cdnum => cdnum
    | none =>
      match strIndexOf raw "-" with
      | none => (raw, "")
      | some idx => (jsTrim (jsSlice raw 0 idx), jsTrim (jsSliceFrom raw (idx + 1)))

/-- Greedily consume `(?:,\d{3})*` groups.  (No backtracking is needed:
every place the star could stop early leaves the cursor on a comma,
which can never start the `\.\d{2}` continuation.) -/
def moneyGroupsAux : List Char → List Char × List Char
  | k :: a :: b :: c :: rest =>
    if k == ',' && a.isDigit && b.isDigit && c.isDigit then
      let (g, r) := moneyGroupsAux rest
      (k :: a :: b :: c :: g, r)
    else ([], k :: a :: b :: c :: rest)
  | cs => ([], cs)

/-- After the leading digits: groups, the mandatory `.dd`, the optional
closing parenthesis.  Returns (consumed characters, rest). -/
def moneyTailAt (cs : List Char) : Option (List Char × List Char) :=
  let (grps, r1) := moneyGroupsAux cs
  match r1 with
  | p :: f1 :: f2 :: r2 =>
    if p == '.' && f1.isDigit && f2.isDigit then
      match r2 with
      | q :: r3 => if q == ')' then some (grps ++ [p, f1, f2, q], r3)
                   else some (grps ++ [p, f1, f2], r2)
      | [] => some (grps ++ [p, f1, f2], r2)
    else none
  | _ => none

/-- Match the money-token regex `/\(?-?\d{1,3}(?:,\d{3})*(?:\.\d{2})\)?/`
at the head of the list, returning (token, rest).  The optional leading
`(` and `-` need no backtracking (if consuming them fails, the digit
that must follow is absent either way); the `\d{1,3}` is tried greedily
from three digits down to one. -/
def tryMoneyLen (op sg cs2 : List Char) (k : Nat) : Option (List Char × List Char) :=
  let ds := cs2.take k
  if ds.length == k && ds.all Char.isDigit then
    match moneyTailAt (cs2.drop k) with
    | some (tail, rest) => some (op ++ sg ++ ds ++ tail, rest)
    | none => none
  else none

def tryMoneyChain (op sg cs2 : List Char) : Option (List Char × List Char) :=
  match tryMoneyLen op sg cs2 3 with
  | some r => some r
  | none =>
    match tryMoneyLen op sg cs2 2 with
    | some r => some r
    | none => tryMoneyLen op sg cs2 1

def matchMoneyAt (cs : List Char) : Option (List Char × List Char) :=
  let (op, cs1) :=
    match cs with
    | c :: r => if c == '(' then ([c], r) else (([] : List Char), cs)
    | [] => (([] : List Char), cs)
  let (sg, cs2) :=
    match cs1 with
    | c :: r => if c == '-' then ([c], r) else (([] : List Char), cs1)
    | [] => (([] : List Char), cs1)
  tryMoneyChain op sg cs2

/-- Global scan of the money-token regex (JS `while ((m = re.exec(s)))`);
each match is reported with its index and scanning resumes after it.
The fuel is the list length (every step advances at least one
character). -/
def findMoneyAux : Nat → List Char → Nat → List (String × Nat)
  | 0, _, _ => []
  | _ + 1, [], _ => []
  | fuel + 1, c :: rest, i =>
    match matchMoneyAt (c :: rest) with
    | some (tok, after) => (⟨tok⟩, i) :: findMoneyAux fuel after (i + tok.length)
    | none => findMoneyAux fuel rest (i + 1)

/-- `findMoneyTokensWithIndex` (fmsecLedgerPdf.js:84-93); form feeds are
removed first. -/
def findMoneyTokensWithIndex (line : String) : List (String × Nat) :=
  let s := line.data.filter (fun c => !(c == '\x0c'))
  findMoneyAux s.length s 0

/-- `normalizeMoney` (fmsecLedgerPdf.js:95-100): `parseAmount` then
absolute value (`parseAmount` only ever returns finite values). -/
def normalizeMoney (s : String) : Option Dec :=
  match parseAmount (.str s) with
  | none => none
  | some q => some (if q.isNeg then q.neg else q)

/-- Backward scan of `extractMovementAmountFromPhpLine` over the
reversed block lines. -/
def extractMovementAux : List String → Option Dec
  | [] => none
  | line :: rest =>
    if !hasPhpMarker line then extractMovementAux rest
    else
      let tokens := findMoneyTokensWithIndex line
      if tokens.isEmpty then extractMovementAux rest
      else
        let pick :=
          if 2 ≤ tokens.length then tokens.getD (tokens.length - 2) ("", 0)
          else tokens.getD 0 ("", 0)
        match normalizeMoney pick.1 with
        | none => extractMovementAux rest
        | some v => some v

/-- `extractMovementAmountFromPhpLine` (fmsecLedgerPdf.js:102-123): scan
the block's lines from the last backward for a line containing the
`PHP` marker with at least one money token; prefer the second-to-last
token of that line (the last is the running balance), falling back to
the only token. -/
def extractMovementAmountFromPhpLine (blockLines : List String) : Option Dec :=
  extractMovementAux blockLines.reverse


/-- The token the movement extractor prefers on a line: the second-to-last
money token when at least two are present, otherwise the only one. -/
def pickTok (line : String) : String × Nat :=
  let tokens := findMoneyTokensWithIndex line
  if 2 ≤ tokens.length then tokens.getD (tokens.length - 2) ("", 0)
  else tokens.getD 0 ("", 0)

/-- The structure of every string matched by the money-token regex. -/
def moneyTokenShape (tok : List Char) : Prop :=
  ∃ op sg ds grps f1 f2 cp,
    tok = op ++ sg ++ ds ++ grps ++ '.' :: f1 :: f2 :: cp ∧
    (op = [] ∨ op = ['(']) ∧ (sg = [] ∨ sg = ['-']) ∧
    ds ≠ [] ∧ (∀ c ∈ ds, c.isDigit = true) ∧
    (∀ c ∈ grps, c = ',' ∨ c.isDigit = true) ∧
    f1.isDigit = true ∧ f2.isDigit = true ∧ (cp = [] ∨ cp = [')'])


/-- The character class `[\d\s,().-]` of the mostly-numeric-line test. -/
def mostlySpacesNumbersClass (c : Char) : Bool :=
  c.isDigit || jsSpaceChar c || c == ',' || c == '(' || c == ')' || c == '.' || c == '-'

/-- Replace every occurrence of `/\s*[=\-]{6,}\s*/` by a single space
(leftmost-first, scanning resumes after each match).  The fuel is the
list length. -/
def replaceSepRuns : Nat → List Char → List Char
  | 0, cs => cs
  | _ + 1, [] => []
  | fuel + 1, c :: rest =>
    let cs := c :: rest
    let sp := cs.takeWhile jsSpaceChar
    let afterSp := cs.drop sp.length
    let run := afterSp.takeWhile (fun x => x == '=' || x == '-')
    if 6 ≤ run.length then
      let afterRun := afterSp.drop run.length
      let sp2 := afterRun.takeWhile jsSpaceChar
      ' ' :: replaceSepRuns fuel (afterRun.drop sp2.length)
    else
      c :: replaceSepRuns fuel rest

/-- Strip a trailing `/\s+0\.\d{2,4}\s*$/` fragment (the stray numeric
tail of wrapped statement rows). -/
def stripTrailingZeroFrag (cs : List Char) : List Char :=
  let rev := cs.reverse
  let sp0 := rev.takeWhile jsSpaceChar
  let r1 := rev.drop sp0.length
  let ds := r1.takeWhile Char.isDigit
  let r2 := r1.drop ds.length
  match r2 with
  | '.' :: '0' :: r3 =>
    let sp1 := r3.takeWhile jsSpaceChar
    if 2 ≤ ds.length ∧ ds.length ≤ 4 ∧ 1 ≤ sp1.length then (r3.drop sp1.length).reverse
    else cs
  | _ => cs

/-- `extractParticulars` (fmsecLedgerPdf.js:125-156): join the first
line's remainder with every later line that is neither a currency/amount
line nor blank nor a table separator, collapse whitespace, scrub
separator runs, and strip a stray trailing decimal fragment. -/
def extractParticulars (blockLines : List String) (firstLineRemainder : String) : String :=
  let parts0 : List String :=
    if firstLineRemainder.isEmpty then [] else [jsTrim firstLineRemainder]
  let parts1 := (blockLines.drop 1).filterMap (fun line =>
    let hasPhp := hasPhpMarker line
    let hasMoney := !(findMoneyTokensWithIndex line).isEmpty
    let trimmed := jsTrim line
    let mostlySpacesNumbers :=
      !trimmed.isEmpty && trimmed.data.all mostlySpacesNumbersClass
    if hasPhp || (hasMoney && mostlySpacesNumbers) then none
    else if trimmed.isEmpty then none
    else if 6 ≤ trimmed.data.length && trimmed.data.all (fun c => c == '=' || c == '-') then none
    else some trimmed)
  let joined0 := String.intercalate " " (parts0 ++ parts1)
  let joined := jsTrim ⟨collapseRuns jsSpaceChar ' ' false joined0.data⟩
  let scrubbed := replaceSepRuns joined.data.length joined.data
  let withoutSeparators := jsTrim ⟨collapseRuns jsSpaceChar ' ' false scrubbed⟩
  jsTrim ⟨stripTrailingZeroFrag withoutSeparators.data⟩

/-- The debit/credit mapping of `parseTransactionBlock`
(fmsecLedgerPdf.js:184-204): a falsy (absent or zero) movement
contributes nothing; trades, non-cash stock dividends and bond purchases
are neutral; cash dividends, coupon payments and future-transaction
receipts are credits; everything else is a debit. -/
def pdfClassifyMovement (cdUpper pUpper : String) (movement : Option Dec) : Dec × Dec :=
  match movement with
  | some mv =>
    if mv.m ≠ 0 then
      let isCashDividend := cdUpper == "CM" && strContains pUpper "CASH DIVIDEND"
      let isCouponPayment := cdUpper == "CM" && strContains pUpper "COUPON PAYMENT"
      let isFutureTransaction :=
        cdUpper == "OR" && strStartsWith pUpper "FUTURE TRANSACTION"
      let isTrade := cdUpper == "BI" || cdUpper == "SI"
      let isNonCashDividend := cdUpper == "IN" && strContains pUpper "STOCK DIVIDEND"
      let isBondPurchase :=
        cdUpper == "DM" &&
          (strContains pUpper "PURCHASE OF RTB" ||
           strContains pUpper "PHILIPPINE GOVERNMENT" ||
           strContains pUpper "BOND ")
      if isTrade || isNonCashDividend || isBondPurchase then (⟨0, 0⟩, ⟨0, 0⟩)
      else if isCashDividend || isCouponPayment || isFutureTransaction then (⟨0, 0⟩, mv)
      else (mv, ⟨0, 0⟩)
    else (⟨0, 0⟩, ⟨0, 0⟩)
  | none => (⟨0, 0⟩, ⟨0, 0⟩)

/-- `parseTransactionBlock` (fmsecLedgerPdf.js:158-222): decompose the
first line, parse the strict PDF date, split the reference, isolate the
first-line remainder (cut at the debit column when one was detected),
assemble the particulars, extract the movement amount, and map it to a
debit or credit by the ordered classification rules. -/
def parseTransactionBlock (blockLines : List String) (debitColIndex : Option Nat) :
    Option LedgerRow :=
  match blockLines with
  | [] => none
  | first :: _ =>
    match parseTxFirstLine first with
    | none => none
    | some (dateStr, reference, remainder) =>
      match parsePdfDateMmDdYyyy dateStr with
      | none => none
      | some ms =>
        let (cd, number) := parseReference reference
        let firstRemainder :=
          match debitColIndex with
          | some dIdx =>
            if 0 < dIdx ∧ dIdx < first.data.length then
              jsTrim (jsSlice first ((strIndexOf first reference).getD 0 + reference.length) dIdx)
            else remainder
          | none => remainder
        let particulars := extractParticulars blockLines firstRemainder
        let movement := extractMovementAmountFromPhpLine blockLines
        let pUpper := jsToUpper (jsTrim particulars)
        let cdUpper := jsToUpper (jsTrim cd)
        let dc := pdfClassifyMovement cdUpper pUpper movement
        some
          { CD := jsTrim cd
            NUMBER := jsTrim number
            DATE := some ms
            DUE_DATE := none
            PARTICULARS := jsTrim particulars
            SECURITY := ""
            NO_OF_SHARES := none
            CURRENCY := "PHP"
            UNIT_PRICE := none
            FX_AMT := none
            FX_RUNNING_BAL := none
            PHP_DEBIT := some (.fin dc.1)
            PHP_CREDIT := some (.fin dc.2)
            PHP_RUNNING_BAL := none }

/-- The scanner state of `parseFmsecLedgerRowsFromPdfText`: accumulated
rows, the detected column offsets, the open block (if any), and whether
the section-end `break` has fired. -/
structure ScanState where
  rows : List LedgerRow
  debitColIndex : Option Nat
  creditColIndex : Option Nat
  block : Option (List String)
  stopped : Bool
deriving DecidableEq, Repr

/-- The initial scanner state. -/
def initScanState : ScanState :=
  { rows := [], debitColIndex := none, creditColIndex := none, block := none, stopped := false }

/-- `flush` (fmsecLedgerPdf.js:244-249): parse the pending block and keep
the row only when it carries a non-blank transaction code. -/
def flushRows (st : ScanState) : ScanState :=
  match st.block with
  | none => st
  | some b =>
    if b.isEmpty then st
    else
      let st1 := { st with block := none }
      match parseTransactionBlock b st.debitColIndex with
      | some row =>
        if (jsTrim row.CD).isEmpty then st1 else { st1 with rows := st.rows ++ [row] }
      | none => st1

/-- The loop body of `parseFmsecLedgerRowsFromPdfText` (lines 251-289)
for one line: after the stop flag everything is ignored (`break`); a
section-end marker seen while a block is open flushes and stops; header
lines record column offsets (and are never appended to a block);
transaction-start lines flush and open a new block; any other line is
appended to the open block (including blanks). -/
def stepLine (st : ScanState) (s : String) : ScanState :=
  if st.stopped then st
  else if st.block.isSome && shouldEndTransactionSection s then
    { flushRows st with stopped := true }
  else if strContains s "PRICE" && strContains s "DEBIT" then
    match strIndexOf s "DEBIT" with
    | some idx => { st with debitColIndex := some idx }
    | none => st
  else if strContains s "CREDIT" && strContains s "BALANCE" then
    match strIndexOf s "CREDIT" with
    | some idx => { st with creditColIndex := some idx }
    | none => st
  else if isTransactionStartLine s then
    { flushRows st with block := some [s] }
  else
    match st.block with
    | some b => { st with block := some (b ++ [s]) }
    | none => st

/-- The pure scanning part of `parseFmsecLedgerRowsFromPdfText`: strip
form feeds, split into lines, fold the scanner, and flush the final
block. -/
def parseFmsecRows (pdfText : String) : List LedgerRow :=
  let text : String := ⟨pdfText.data.filter (fun c => !(c == '\x0c'))⟩
  (flushRows ((splitLines text).foldl stepLine initScanState)).rows

/-- `parseFmsecLedgerRowsFromPdfText` (fmsecLedgerPdf.js:224-297): scan,
then run `validateFmsecLedgerHeaders` on the produced rows (its only
reachable failure here is the empty-row case, since every produced row
object carries all canonical keys). -/
def parseFmsecLedgerRowsFromPdfText (pdfText : String) : Except String (List LedgerRow) :=
  let rows := parseFmsecRows pdfText
  match validateFmsecLedgerHeaders (rows.map (fun _ => ledgerRowObjectKeys)) with
  | .ok _ => .ok rows
  | .error e => .error e

example :
    findMoneyTokensWithIndex "       0.0000            1,234.56 PHP       10,000.00" =
      [("0.00", 7), ("1,234.56", 25), ("10,000.00", 44)] := by decide

example : hasPhpMarker "  1.00 PHP 2.00" = true := by decide
example : hasPhpMarker "PHPX 2.00" = false := by decide
example : shouldEndTransactionSection "   ENDING  SECURITY POSITION" = true := by decide
example : shouldEndTransactionSection "  L E G E N D" = true := by decide
example : shouldEndTransactionSection "This is a computer generated statement." = true := by decide
example : shouldEndTransactionSection "01/02/2024 OR-123 stuff" = false := by decide
example : isTransactionStartLine "  01/02/2024 OR-123 stuff" = true := by decide
example : isTransactionStartLine "123/02/2024 OR-123" = false := by decide
example : parseReference "OR-123" = ("OR", "123") := by decide
example : parseReference "-" = ("", "") := by decide
example : parseReference "XYZ" = ("XYZ", "") := by decide

/-- C2 counterexample input: a delimited-text upload whose `PHP_DEBIT`
cell is the parenthesized negative `(1,234.56)`. -/
def csvParenNegativeText : String :=
  "CD,NUMBER,DATE,PARTICULARS,PHP_DEBIT,PHP_CREDIT\nOR,1,,x,\"(1,234.56)\","

/-- Concrete two-line statement block used to instantiate the C2
amended theorem. -/
def pdfWitnessText : String :=
  "01/02/2024 AB-1 something\n       0.0000     1,234.56 PHP  10,000.00"

/-- The canonical row the PDF adapter produces for `pdfWitnessText`. -/
def pdfWitnessRow : LedgerRow :=
  { CD := "AB", NUMBER := "1", DATE := some 1704196800000, DUE_DATE := none,
    PARTICULARS := "something", SECURITY := "", NO_OF_SHARES := none, CURRENCY := "PHP",
    UNIT_PRICE := none, FX_AMT := none, FX_RUNNING_BAL := none,
    PHP_DEBIT := some (.fin ⟨123456, 2⟩), PHP_CREDIT := some (.fin ⟨0, 0⟩),
    PHP_RUNNING_BAL := none }

/-- What `flush` contributes to the row list for a pending block: the
parsed row when it exists and carries a non-blank code, nothing
otherwise. -/
def flushEmit (b : List String) (dIdx : Option Nat) : List LedgerRow :=
  match parseTransactionBlock b dIdx with
  | some row => if (jsTrim row.CD).isEmpty then [] else [row]
  | none => []

/-- Concrete statement text for C5: a complete first block, then a
transaction-start line whose reference is the bare dash (so its
transaction code is blank), then the ending banner, then more
transaction-like lines. -/
def c5CounterexampleText : String :=
  "01/02/2024 AB-1 first\n       100.00 PHP  200.00\n01/03/2024 -\nENDING SECURITY POSITION\n01/04/2024 CD-2 after\n       1.00 PHP  2.00"

/-- Derived view of the row gate in `cashStep`: the month bucket a row
maps to, or `none` when the row is skipped (no valid date or, for a
truthy target year, a different local year). -/
def rowMonthKey (tz : Int) (year : Option Int) (row : LedgerRow) : Option Nat :=
  match row.DATE with
  | none => none
  | some ms =>
    if yearTruthy year && (getFullYearLocal tz ms != year.getD 0) then none
    else some (getMonthIdxLocal tz ms).toNat

/-- A concrete dual-contribution row: an `OR` / `FUTURE TRANSACTION`
receipt carrying both a credit and a debit. -/
def c1WitnessRow : LedgerRow :=
  { CD := "OR", NUMBER := "9", DATE := some 1705406400000, DUE_DATE := none,
    PARTICULARS := "FUTURE TRANSACTION - DEPOSIT", SECURITY := "", NO_OF_SHARES := none,
    CURRENCY := "PHP", UNIT_PRICE := none, FX_AMT := none, FX_RUNNING_BAL := none,
    PHP_DEBIT := some (.fin ⟨50, 0⟩), PHP_CREDIT := some (.fin ⟨10000, 0⟩),
    PHP_RUNNING_BAL := none }

/-- A row whose debit is NaN, used to instantiate C10. -/
def c10WitnessRow : LedgerRow :=
  { CD := "XX", NUMBER := "1", DATE := some 0, DUE_DATE := none,
    PARTICULARS := "NOISE", SECURITY := "", NO_OF_SHARES := none, CURRENCY := "PHP",
    UNIT_PRICE := none, FX_AMT := none, FX_RUNNING_BAL := none,
    PHP_DEBIT := some .nan, PHP_CREDIT := none, PHP_RUNNING_BAL := none }

/-- The row produced by the C4 witness block (no PHP line, so both money
fields are zero). -/
def c4BlockRow : LedgerRow :=
  { CD := "AB", NUMBER := "1", DATE := some 1704196800000, DUE_DATE := none,
    PARTICULARS := "first only", SECURITY := "", NO_OF_SHARES := none,
    CURRENCY := "PHP", UNIT_PRICE := none, FX_AMT := none, FX_RUNNING_BAL := none,
    PHP_DEBIT := some (.fin ⟨0, 0⟩), PHP_CREDIT := some (.fin ⟨0, 0⟩),
    PHP_RUNNING_BAL := none }

/-- Decidable equality for `Except` results (used to evaluate the
loaders on concrete inputs). -/
instance {ε α : Type} [DecidableEq ε] [DecidableEq α] : DecidableEq (Except ε α)
  | .ok a, .ok b => if h : a = b then .isTrue (by rw [h]) else .isFalse (by simp [h])
  | .ok _, .error _ => .isFalse (by simp)
  | .error _, .ok _ => .isFalse (by simp)
  | .error a, .error b => if h : a = b then .isTrue (by rw [h]) else .isFalse (by simp [h])

/-!
THEOREMS.  Each claim of the frozen claim list gets exactly one theorem
below (plus a witness or counterexample where required).
-/

/-- C8: `parseAmount("(1,234.56)") = -1234.56` (the parenthesized value,
whose exact decimal is `⟨-123456, 2⟩`, i.e. the rational -1234.56);
`parseAmount("-") = absent`; `parseAmount("") = absent`;
`parseAmount(1000) = 1000`; and for every input `parseAmount` is a total
function into an option: absence is the only failure signal (the
embedding is total, so no exception path exists). -/
theorem claim_C8 :
    parseAmount (.str "(1,234.56)") = some ⟨-123456, 2⟩ ∧
    Dec.toRat ⟨-123456, 2⟩ = -1234.56 ∧
    parseAmount (.str "-") = none ∧
    parseAmount (.str "") = none ∧
    parseAmount (.num (.fin ⟨1000, 0⟩)) = some ⟨1000, 0⟩ ∧
    ∀ v : JVal, parseAmount v = none ∨ ∃ q : Dec, parseAmount v = some q := by
  refine ⟨by decide, by norm_num [Dec.toRat], by decide, by decide, by decide, ?_⟩
  intro v
  rcases h : parseAmount v with _ | q
  · exact Or.inl rfl
  · exact Or.inr ⟨q, rfl⟩

/-- Closed instance of C8's universally quantified totality conjunct. -/
theorem claim_C8_witness :
    parseAmount (.str "garbage") = none ∨ ∃ q : Dec, parseAmount (.str "garbage") = some q :=
  claim_C8.2.2.2.2.2 (.str "garbage")

/-- C3: `parseLedgerDate("7/3/2024")` resolves with day-before-month
preference to local midnight of 2024-03-07 (so `getDate` = 7 and the
month is March, not July) under every fixed timezone offset;
`parseLedgerDate(45307)` resolves the spreadsheet serial to UTC noon of
2024-01-16, so the ISO (UTC) date render is 2024-01-16 and the local
date render agrees for every real-world offset (strictly between -12h
inclusive and +12h exclusive);  `parsePdfDateMmDdYyyy` accepts only the
strict two-digit/two-digit/four-digit pattern (rejecting "7/3/2024")
and reads it as month/day/year, so the visual string "07/03/2024"
parses to 2024-07-03 in the PDF parser but to 2024-03-07 in
`parseLedgerDate`. -/
theorem claim_C3 :
    (∀ tz : Int,
      parseLedgerDate tz (.str "7/3/2024") =
        some (86400000 * daysFromCivil 2024 3 7 - tz * 60000) ∧
      msToLocalCivil tz (86400000 * daysFromCivil 2024 3 7 - tz * 60000) = (2024, 3, 7)) ∧
    (∀ tz : Int, parseLedgerDate tz (.num (.fin ⟨45307, 0⟩)) = some 1705406400000) ∧
    (1705406400000 : Int) = dateUtcMs 2024 1 16 12 ∧
    msToUtcCivil 1705406400000 = (2024, 1, 16) ∧
    (∀ tz : Int, -720 ≤ tz → tz < 720 →
      msToLocalCivil tz 1705406400000 = (2024, 1, 16)) ∧
    parsePdfDateMmDdYyyy "7/3/2024" = none ∧
    parsePdfDateMmDdYyyy "07/03/2024" = some (dateUtcMs 2024 7 3 12) ∧
    (∀ tz : Int,
      parseLedgerDate tz (.str "07/03/2024") =
        some (86400000 * daysFromCivil 2024 3 7 - tz * 60000)) ∧
    msToUtcCivil (dateUtcMs 2024 7 3 12) = (2024, 7, 3) ∧
    ((2024, 7, 3) : Int × Int × Int) ≠ (2024, 3, 7) := by
  refine ⟨?_, ?_, by decide, by decide, ?_, by decide, by decide, ?_, by decide, by decide⟩
  · intro tz
    constructor
    · rfl
    · show civilFromDays ((86400000 * daysFromCivil 2024 3 7 - tz * 60000 + tz * 60000) /
        86400000) = (2024, 3, 7)
      rw [show daysFromCivil 2024 3 7 = (19789 : Int) from by decide]
      have h : (86400000 * (19789 : Int) - tz * 60000 + tz * 60000) / 86400000 = 19789 := by
        omega
      rw [h]
      decide
  · intro tz
    rfl
  · intro tz h1 h2
    show civilFromDays ((1705406400000 + tz * 60000) / 86400000) = (2024, 1, 16)
    have h : ((1705406400000 : Int) + tz * 60000) / 86400000 = 19738 := by omega
    rw [h]
    decide
  · intro tz
    rfl

/-- Closed instance of C3 at the Manila offset (+480 minutes). -/
theorem claim_C3_witness :
    msToLocalCivil 480 (86400000 * daysFromCivil 2024 3 7 - 480 * 60000) = (2024, 3, 7) ∧
    msToLocalCivil 480 1705406400000 = (2024, 1, 16) :=
  ⟨(claim_C3.1 480).2, claim_C3.2.2.2.2.1 480 (by decide) (by decide)⟩

lemma normalizeMoney_nonneg {s : String} {d : Dec} (h : normalizeMoney s = some d) :
    0 ≤ d.m := by
  unfold normalizeMoney at h
  split at h
  · cases h
  · rename_i q hq
    injection h with h
    subst h
    split
    · rename_i hneg
      unfold Dec.isNeg at hneg
      have hm : q.m < 0 := by simpa using hneg
      show (0 : Int) ≤ -q.m
      omega
    · rename_i hneg
      unfold Dec.isNeg at hneg
      have hm : ¬(q.m < 0) := by simpa using hneg
      omega

lemma extractMovementAux_nonneg : ∀ ls v, extractMovementAux ls = some v → 0 ≤ v.m := by
  intro ls
  induction ls with
  | nil => intro v h; exact absurd h (by simp [extractMovementAux])
  | cons line rest ih =>
    intro v h
    unfold extractMovementAux at h
    split at h
    · exact ih v h
    · dsimp only [] at h
      split at h
      · exact ih v h
      · split at h
        · exact ih v h
        · rename_i u hu
          injection h with h
          subst h
          exact normalizeMoney_nonneg hu

lemma extractMovement_nonneg {bl : List String} {v : Dec}
    (h : extractMovementAmountFromPhpLine bl = some v) : 0 ≤ v.m :=
  extractMovementAux_nonneg bl.reverse v h

lemma pdfClassifyMovement_nonneg (cu pu : String) (mo : Option Dec)
    (hmo : ∀ mv, mo = some mv → 0 ≤ mv.m) :
    0 ≤ (pdfClassifyMovement cu pu mo).1.m ∧ 0 ≤ (pdfClassifyMovement cu pu mo).2.m := by
  cases mo with
  | none => exact ⟨le_refl 0, le_refl 0⟩
  | some mv =>
    have hv : 0 ≤ mv.m := hmo mv rfl
    simp only [pdfClassifyMovement]
    split
    · split
      · exact ⟨le_refl 0, le_refl 0⟩
      · split
        · exact ⟨le_refl 0, hv⟩
        · exact ⟨hv, le_refl 0⟩
    · exact ⟨le_refl 0, le_refl 0⟩

lemma parseTransactionBlock_amounts {bl : List String} {dIdx : Option Nat} {row : LedgerRow}
    (h : parseTransactionBlock bl dIdx = some row) :
    ∃ d c : Dec,
      row.PHP_DEBIT = some (.fin d) ∧ 0 ≤ d.m ∧
      row.PHP_CREDIT = some (.fin c) ∧ 0 ≤ c.m := by
  unfold parseTransactionBlock at h
  split at h
  · cases h
  · split at h
    · cases h
    · split at h
      · cases h
      · injection h with h
        subst h
        exact ⟨_, _, rfl,
          (pdfClassifyMovement_nonneg _ _ _ (fun mv hmv => extractMovement_nonneg hmv)).1, rfl,
          (pdfClassifyMovement_nonneg _ _ _ (fun mv hmv => extractMovement_nonneg hmv)).2⟩

lemma flushRows_nonneg {st : ScanState}
    (h : ∀ r ∈ st.rows, ∃ d c : Dec,
      r.PHP_DEBIT = some (.fin d) ∧ 0 ≤ d.m ∧ r.PHP_CREDIT = some (.fin c) ∧ 0 ≤ c.m) :
    ∀ r ∈ (flushRows st).rows, ∃ d c : Dec,
      r.PHP_DEBIT = some (.fin d) ∧ 0 ≤ d.m ∧ r.PHP_CREDIT = some (.fin c) ∧ 0 ≤ c.m := by
  unfold flushRows
  split
  · exact h
  · split
    · exact h
    · split
      · split
        · exact h
        · intro r hr
          simp only [List.mem_append, List.mem_singleton] at hr
          rcases hr with hr | hr
          · exact h r hr
          · subst hr
            exact parseTransactionBlock_amounts (by assumption)
      · exact h

lemma stepLine_nonneg {st : ScanState} (s : String)
    (h : ∀ r ∈ st.rows, ∃ d c : Dec,
      r.PHP_DEBIT = some (.fin d) ∧ 0 ≤ d.m ∧ r.PHP_CREDIT = some (.fin c) ∧ 0 ≤ c.m) :
    ∀ r ∈ (stepLine st s).rows, ∃ d c : Dec,
      r.PHP_DEBIT = some (.fin d) ∧ 0 ≤ d.m ∧ r.PHP_CREDIT = some (.fin c) ∧ 0 ≤ c.m := by
  unfold stepLine
  split
  · exact h
  · split
    · exact flushRows_nonneg h
    · split
      · split
        · exact h
        · exact h
      · split
        · split
          · exact h
          · exact h
        · split
          · exact flushRows_nonneg h
          · split
            · exact h
            · exact h

lemma foldl_stepLine_nonneg : ∀ (lines : List String) (st : ScanState),
    (∀ r ∈ st.rows, ∃ d c : Dec,
      r.PHP_DEBIT = some (.fin d) ∧ 0 ≤ d.m ∧ r.PHP_CREDIT = some (.fin c) ∧ 0 ≤ c.m) →
    ∀ r ∈ (lines.foldl stepLine st).rows, ∃ d c : Dec,
      r.PHP_DEBIT = some (.fin d) ∧ 0 ≤ d.m ∧ r.PHP_CREDIT = some (.fin c) ∧ 0 ≤ c.m := by
  intro lines
  induction lines with
  | nil => intro st h; exact h
  | cons l rest ih =>
    intro st h
    exact ih (stepLine st l) (stepLine_nonneg l h)

/-- C2 counterexample: contrary to the claim, the delimited-text adapter
does not produce non-negative `PHP_DEBIT` values: a parenthesized
negative source cell `(1,234.56)` yields the canonical row value
-1234.56 (the exact decimal `⟨-123456, 2⟩`), because `coerceLedgerRow`
passes the signed `parseAmount` result through unchanged — only the PDF
adapter takes absolute values. -/
theorem claim_C2_counterexample :
    (loadFmsecLedgerRowsFromCsvText 0 csvParenNegativeText).map
        (List.map (fun r => r.PHP_DEBIT)) =
      .ok [some (.fin ⟨-123456, 2⟩)] ∧
    Dec.toRat ⟨-123456, 2⟩ < 0 := by
  constructor
  · decide
  · norm_num [Dec.toRat]

/-- C2 (amended): every CanonicalRow produced by the PDF statement
adapter has non-negative `PHP_DEBIT` and `PHP_CREDIT` (the movement is
normalized to its absolute value and the classification only ever uses
it or zero); the worksheet and delimited-text adapters instead preserve
`parseAmount`'s sign, so a parenthesized-negative cell produces a
negative field there (see the counterexample). -/
theorem claim_C2_amended :
    ∀ (text : String) (rows : List LedgerRow),
      parseFmsecLedgerRowsFromPdfText text = .ok rows →
      ∀ r ∈ rows, ∃ d c : Dec,
        r.PHP_DEBIT = some (.fin d) ∧ 0 ≤ d.m ∧
        r.PHP_CREDIT = some (.fin c) ∧ 0 ≤ c.m := by
  intro text rows h
  have hrows : rows = parseFmsecRows text := by
    unfold parseFmsecLedgerRowsFromPdfText at h
    dsimp only [] at h
    split at h
    · cases h; rfl
    · cases h
  subst hrows
  unfold parseFmsecRows
  exact flushRows_nonneg (foldl_stepLine_nonneg _ _ (by intro r hr; cases hr))

/-- Closed instance of the C2 amended theorem on a concrete statement. -/
theorem claim_C2_amended_witness :
    ∃ d c : Dec,
      pdfWitnessRow.PHP_DEBIT = some (.fin d) ∧ 0 ≤ d.m ∧
      pdfWitnessRow.PHP_CREDIT = some (.fin c) ∧ 0 ≤ c.m :=
  claim_C2_amended pdfWitnessText [pdfWitnessRow] (by decide) pdfWitnessRow (by decide)

lemma stepLine_of_stopped {st : ScanState} (h : st.stopped = true) (s : String) :
    stepLine st s = st := by
  unfold stepLine
  rw [if_pos h]

lemma foldl_stepLine_of_stopped :
    ∀ (lines : List String) (st : ScanState), st.stopped = true →
      lines.foldl stepLine st = st := by
  intro lines
  induction lines with
  | nil => intro st _; rfl
  | cons l rest ih =>
    intro st h
    rw [List.foldl_cons, stepLine_of_stopped h]
    exact ih st h

lemma flushRows_of_block_none {st : ScanState} (h : st.block = none) : flushRows st = st := by
  unfold flushRows
  rw [h]

lemma flushRows_of_block_some {st : ScanState} {b : List String} (h : st.block = some b) :
    (flushRows st).rows = st.rows ++ flushEmit b st.debitColIndex ∧
    ((flushRows st).block = none ∨ flushRows st = st) ∧
    (flushRows st).stopped = st.stopped := by
  unfold flushRows flushEmit
  rw [h]
  dsimp only []
  split
  · rename_i he
    have hb : b = [] := by simpa using he
    subst hb
    rw [show parseTransactionBlock [] st.debitColIndex = none from rfl]
    dsimp only []
    exact ⟨(List.append_nil st.rows).symm, Or.inr rfl, rfl⟩
  · rcases hp : parseTransactionBlock b st.debitColIndex with _ | row <;> dsimp only []
    · exact ⟨(List.append_nil st.rows).symm, Or.inl rfl, rfl⟩
    · split
      · exact ⟨(List.append_nil st.rows).symm, Or.inl rfl, rfl⟩
      · exact ⟨rfl, Or.inl rfl, rfl⟩

/-- C5 (amended): whenever a transaction block is open when a
section-end marker line arrives, the scan flushes the pending block —
its row is included exactly when the block parses to a row with a valid
leading date and a non-blank transaction code (`flushEmit`), not
unconditionally — and stops: every line after the marker is ignored, so
the result equals the result of the input truncated right after the
marker.  The final conjunct records that `parseFmsecRows` is exactly
this scan composed with form-feed removal and line splitting. -/
theorem claim_C5_amended :
    (∀ (pre post : List String) (marker : String) (b : List String),
      shouldEndTransactionSection marker = true →
      (pre.foldl stepLine initScanState).stopped = false →
      (pre.foldl stepLine initScanState).block = some b →
      (flushRows ((pre ++ marker :: post).foldl stepLine initScanState)).rows =
          (pre.foldl stepLine initScanState).rows ++
            flushEmit b (pre.foldl stepLine initScanState).debitColIndex ∧
      (flushRows ((pre ++ marker :: post).foldl stepLine initScanState)).rows =
        (flushRows ((pre ++ [marker]).foldl stepLine initScanState)).rows) ∧
    (∀ text : String,
      parseFmsecRows text =
        (flushRows ((splitLines ⟨text.data.filter (fun c => !(c == '\x0c'))⟩).foldl
          stepLine initScanState)).rows) := by
  constructor
  · intro pre post marker b hm hstop hblock
    have hstep : stepLine (pre.foldl stepLine initScanState) marker =
        { flushRows (pre.foldl stepLine initScanState) with stopped := true } := by
      generalize (pre.foldl stepLine initScanState) = st at hstop hblock ⊢
      unfold stepLine
      rw [if_neg (by rw [hstop]; simp)]
      rw [if_pos (by rw [hblock, hm]; simp)]
    have hcollapse :
        (flushRows ((pre ++ marker :: post).foldl stepLine initScanState)).rows =
          (flushRows
            { flushRows (pre.foldl stepLine initScanState) with stopped := true }).rows := by
      rw [List.foldl_append, List.foldl_cons, hstep,
        foldl_stepLine_of_stopped post _ rfl]
    have hcollapse1 :
        (flushRows ((pre ++ [marker]).foldl stepLine initScanState)).rows =
          (flushRows
            { flushRows (pre.foldl stepLine initScanState) with stopped := true }).rows := by
      rw [List.foldl_append, List.foldl_cons, List.foldl_nil, hstep]
    obtain ⟨hrows, hblockcase, _⟩ := flushRows_of_block_some hblock
    have hmain :
        (flushRows
            { flushRows (pre.foldl stepLine initScanState) with stopped := true }).rows =
          (pre.foldl stepLine initScanState).rows ++
            flushEmit b (pre.foldl stepLine initScanState).debitColIndex := by
      rcases hblockcase with hnone | heq
      · have hb2 :
            ({ flushRows (pre.foldl stepLine initScanState) with
                stopped := true } : ScanState).block = none := hnone
        rw [flushRows_of_block_none hb2]
        exact hrows
      · have hb2 :
            ({ flushRows (pre.foldl stepLine initScanState) with
                stopped := true } : ScanState).block = some b := by
          show (flushRows (pre.foldl stepLine initScanState)).block = some b
          rw [heq]
          exact hblock
        have h2 := (flushRows_of_block_some hb2).1
        rw [h2]
        show (flushRows (pre.foldl stepLine initScanState)).rows ++
            flushEmit b (flushRows (pre.foldl stepLine initScanState)).debitColIndex = _
        rw [heq]
    exact ⟨hcollapse.trans hmain, hcollapse.trans hcollapse1.symm⟩
  · intro text
    rfl

/-- C5 counterexample: with a block open (started by `01/03/2024 -`)
when the ending banner arrives, the pending block is flushed but NOT
included — its reference produces a blank transaction code, so the
result holds only the first block's row, contrary to the claim that the
pending block "is finalized and included in the result".  (The lines
after the banner are indeed excluded.) -/
theorem claim_C5_counterexample :
    (parseFmsecLedgerRowsFromPdfText c5CounterexampleText).map (List.map (fun r => r.CD)) =
      .ok ["AB"] := by
  decide

/-- Closed instance of the C5 amended theorem: the same scenario as the
counterexample, truncated at the banner, evaluated through the theorem. -/
theorem claim_C5_amended_witness :
    (flushRows ((["01/02/2024 AB-1 first", "       100.00 PHP  200.00", "01/03/2024 -"] ++
        "ENDING SECURITY POSITION" :: ["01/04/2024 CD-2 after"]).foldl
          stepLine initScanState)).rows =
      (["01/02/2024 AB-1 first", "       100.00 PHP  200.00",
        "01/03/2024 -"].foldl stepLine initScanState).rows ++
        flushEmit ["01/03/2024 -"]
          (["01/02/2024 AB-1 first", "       100.00 PHP  200.00",
            "01/03/2024 -"].foldl stepLine initScanState).debitColIndex :=
  (claim_C5_amended.1 ["01/02/2024 AB-1 first", "       100.00 PHP  200.00", "01/03/2024 -"]
    ["01/04/2024 CD-2 after"] "ENDING SECURITY POSITION" ["01/03/2024 -"]
    (by decide) (by decide) (by decide)).1

lemma findIdx?_of_all_false {α : Type} (p : α → Bool) :
    ∀ (l : List α) (i : Nat), (∀ x ∈ l, p x = false) → List.findIdx? p l i = none := by
  intro l
  induction l with
  | nil => intro i _; rfl
  | cons a t ih =>
    intro i h
    rw [List.findIdx?_cons, if_neg (by simp [h a (by simp)])]
    exact ih (i + 1) (fun x hx => h x (by simp [hx]))

lemma findIdx?_append_first {α : Type} (p : α → Bool) (hdr : α) (rest : List α)
    (hp : p hdr = true) :
    ∀ (pre : List α) (i : Nat), (∀ x ∈ pre, p x = false) →
      List.findIdx? p (pre ++ hdr :: rest) i = some (i + pre.length) := by
  intro pre
  induction pre with
  | nil =>
    intro i _
    rw [List.nil_append, List.findIdx?_cons, if_pos hp]
    simp
  | cons a t ih =>
    intro i h
    rw [List.cons_append, List.findIdx?_cons, if_neg (by simp [h a (by simp)])]
    rw [ih (i + 1) (fun x hx => h x (by simp [hx]))]
    simp only [List.length_cons, Option.some.injEq]
    omega

lemma getD_append_cons {α : Type} (pre : List α) (x : α) (rest : List α) (d : α) :
    (pre ++ x :: rest).getD pre.length d = x := by
  rw [List.getD_eq_getElem?_getD, List.getElem?_append_right (le_refl _), Nat.sub_self]
  simp

lemma drop_append_cons {α : Type} (pre : List α) (x : α) (rest : List α) :
    (pre ++ x :: rest).drop (pre.length + 1) = rest := by
  have h1 : pre ++ x :: rest = (pre ++ [x]) ++ rest := by simp
  have h2 : pre.length + 1 = (pre ++ [x]).length := by simp
  rw [h1, h2, List.drop_left]

/-- C6 (amended): the worksheet adapter locates the header by scanning
top-down for the first row containing a cell that equals `CD` after
trim/upper-case, tolerating arbitrary preamble and failing with the
schema error when no such row exists; the delimited-text adapter
instead locates the header as the first non-blank line whose trimmed,
upper-cased text starts with the literal `CD,NUMBER,DATE,` — not "any
line containing a field equal to CD" — with the same preamble tolerance
and the same schema error when absent. -/
theorem claim_C6_amended :
    (∀ (tz : Int) (rows : List (List JVal)), rows ≠ [] →
      (∀ r ∈ rows, r.any cellIsCdMarker = false) →
      parseLedgerRowsFromWorksheet tz rows =
        .error "Could not find header row (CD, NUMBER, DATE, ...) in CSV") ∧
    (∀ (tz : Int) (pre : List (List JVal)) (hdr : List JVal) (rest : List (List JVal)),
      (∀ r ∈ pre, r.any cellIsCdMarker = false) →
      hdr.any cellIsCdMarker = true →
      parseLedgerRowsFromWorksheet tz (pre ++ hdr :: rest) =
        .ok (worksheetDataRows tz (hdr.map normalizeHeaderCell) rest)) ∧
    (∀ (tz : Int) (lines : List String),
      (∀ l ∈ lines, csvHeaderPred l = false) →
      loadCsvFromLines tz lines =
        .error "Could not find header row (CD, NUMBER, DATE, ...) in CSV") ∧
    (∀ (tz : Int) (pre : List String) (hdr : String) (rest : List String),
      (∀ l ∈ pre, csvHeaderPred l = false) →
      csvHeaderPred hdr = true →
      loadCsvFromLines tz (pre ++ hdr :: rest) =
        .ok (csvDataRows tz
          ((parseCsvLine hdr).map (fun c => normalizeHeaderCell (.str c))) rest)) ∧
    (∀ (tz : Int) (text : String),
      loadFmsecLedgerRowsFromCsvText tz text =
        loadCsvFromLines tz ((splitLines text).filter (fun l => !(jsTrim l).isEmpty))) := by
  refine ⟨?_, ?_, ?_, ?_, fun tz text => rfl⟩
  · intro tz rows hne hall
    unfold parseLedgerRowsFromWorksheet
    rw [if_neg (by simpa using hne)]
    rw [findIdx?_of_all_false _ rows 0 hall]
  · intro tz pre hdr rest hall hp
    unfold parseLedgerRowsFromWorksheet
    rw [if_neg (by simp)]
    rw [findIdx?_append_first _ hdr rest hp pre 0 hall]
    show Except.ok (worksheetDataRows tz
        (((pre ++ hdr :: rest).getD (0 + pre.length) []).map normalizeHeaderCell)
        ((pre ++ hdr :: rest).drop (0 + pre.length + 1))) = _
    rw [Nat.zero_add, getD_append_cons, drop_append_cons]
  · intro tz lines hall
    unfold loadCsvFromLines
    rw [findIdx?_of_all_false _ lines 0 hall]
  · intro tz pre hdr rest hall hp
    unfold loadCsvFromLines
    rw [findIdx?_append_first _ hdr rest hp pre 0 hall]
    show Except.ok (csvDataRows tz
        ((parseCsvLine ((pre ++ hdr :: rest).getD (0 + pre.length) "")).map
          (fun c => normalizeHeaderCell (.str c)))
        ((pre ++ hdr :: rest).drop (0 + pre.length + 1))) = _
    rw [Nat.zero_add, getD_append_cons, drop_append_cons]

/-- C6 counterexample: a delimited-text input whose second field is
`CD` — per the claim both adapters should accept this line as the
header, but the delimited-text adapter rejects the whole file because
the line does not start with `CD,NUMBER,DATE,`. -/
theorem claim_C6_counterexample :
    loadFmsecLedgerRowsFromCsvText 0 "FOO,CD,BAR\nOR,x,y" =
      .error "Could not find header row (CD, NUMBER, DATE, ...) in CSV" ∧
    (parseCsvLine "FOO,CD,BAR").any (fun f => jsToUpper (jsTrim f) == "CD") = true := by
  constructor
  · decide
  · decide

/-- Closed instance of the C6 amended theorem: one preamble row before
a worksheet header row containing the `CD` marker cell. -/
theorem claim_C6_amended_witness :
    parseLedgerRowsFromWorksheet 0
        ([[JVal.str "TITLE"]] ++ [JVal.str "CD", JVal.str "DATE"] :: [[JVal.str "OR"]]) =
      .ok (worksheetDataRows 0
        ([JVal.str "CD", JVal.str "DATE"].map normalizeHeaderCell) [[JVal.str "OR"]]) :=
  claim_C6_amended.2.1 0 [[JVal.str "TITLE"]] [JVal.str "CD", JVal.str "DATE"]
    [[JVal.str "OR"]] (by decide) (by decide)

lemma cashStep_of_key_none {tz : Int} {year : Option Int} {row : LedgerRow}
    (st : Nat → Option MonthRow) (h : rowMonthKey tz year row = none) :
    cashStep tz year st row = st := by
  unfold rowMonthKey at h
  unfold cashStep
  split
  · rfl
  · rename_i ms hms
    rw [hms] at h
    dsimp only [] at h
    split
    · rfl
    · rename_i hgate
      rw [if_neg hgate] at h
      cases h

lemma cashStep_of_key_some {tz : Int} {year : Option Int} {row : LedgerRow} {m : Nat}
    (st : Nat → Option MonthRow) (h : rowMonthKey tz year row = some m) :
    ∃ b : MonthRow, cashStep tz year st row = mapSet st m b ∧
      b.month = ((st m).getD (initMonthRow m)).month := by
  unfold rowMonthKey at h
  unfold cashStep
  cases hms : row.DATE with
  | none => rw [hms] at h; cases h
  | some ms =>
    rw [hms] at h
    dsimp only [] at h ⊢
    split
    · rename_i hgate
      rw [if_pos hgate] at h
      cases h
    · rename_i hgate
      rw [if_neg hgate] at h
      injection h with h
      subst h
      split
      · exact ⟨_, rfl, rfl⟩
      · split
        · exact ⟨_, rfl, rfl⟩
        · refine ⟨_, rfl, ?_⟩
          split <;> rfl

lemma cashStep_apply_ne {tz : Int} {year : Option Int} {row : LedgerRow} {m : Nat}
    (st : Nat → Option MonthRow) (h : rowMonthKey tz year row ≠ some m) :
    cashStep tz year st row m = st m := by
  cases hk : rowMonthKey tz year row with
  | none => rw [cashStep_of_key_none st hk]
  | some m2 =>
    obtain ⟨b, hb, _⟩ := cashStep_of_key_some st hk
    rw [hb]
    unfold mapSet
    rw [if_neg]
    intro he
    exact h (he ▸ hk)

lemma cashStep_apply_isSome {tz : Int} {year : Option Int} {row : LedgerRow} {m : Nat}
    (st : Nat → Option MonthRow) (h : rowMonthKey tz year row = some m) :
    (cashStep tz year st row m).isSome = true := by
  obtain ⟨b, hb, _⟩ := cashStep_of_key_some st h
  rw [hb]
  unfold mapSet
  rw [if_pos rfl]
  rfl

lemma foldl_cashStep_isSome {tz : Int} {year : Option Int} :
    ∀ (rows : List LedgerRow) (st : Nat → Option MonthRow) (m : Nat),
      ((rows.foldl (cashStep tz year) st) m).isSome = true ↔
        (st m).isSome = true ∨ ∃ r ∈ rows, rowMonthKey tz year r = some m := by
  intro rows
  induction rows with
  | nil => intro st m; simp
  | cons r rest ih =>
    intro st m
    rw [List.foldl_cons, ih]
    constructor
    · rintro (hs | ⟨r2, hr2, hk⟩)
      · by_cases hk : rowMonthKey tz year r = some m
        · exact Or.inr ⟨r, by simp, hk⟩
        · rw [cashStep_apply_ne st hk] at hs
          exact Or.inl hs
      · exact Or.inr ⟨r2, by simp [hr2], hk⟩
    · rintro (hs | ⟨r2, hr2, hk⟩)
      · by_cases hk : rowMonthKey tz year r = some m
        · exact Or.inl (cashStep_apply_isSome st hk)
        · rw [cashStep_apply_ne st hk]
          exact Or.inl hs
      · rcases List.mem_cons.mp hr2 with he | he
        · subst he
          exact Or.inl (cashStep_apply_isSome st hk)
        · exact Or.inr ⟨r2, he, hk⟩

lemma foldl_eq_foldl_filter {α β : Type} (f : β → α → β) (p : α → Bool)
    (hf : ∀ (st : β) (r : α), p r = false → f st r = st) :
    ∀ (rows : List α) (st : β), (rows.filter p).foldl f st = rows.foldl f st := by
  intro rows
  induction rows with
  | nil => intro st; rfl
  | cons r rest ih =>
    intro st
    rw [List.foldl_cons]
    cases hp : p r with
    | true => rw [List.filter_cons_of_pos hp, List.foldl_cons, ih]
    | false => rw [List.filter_cons_of_neg (by simp [hp]), ih, hf st r hp]

lemma monthLabel_invariant {tz : Int} {year : Option Int} :
    ∀ (rows : List LedgerRow) (st : Nat → Option MonthRow),
      (∀ m b, st m = some b → b.month = MONTH_LABELS.getD m (toString (m + 1))) →
      ∀ m b, (rows.foldl (cashStep tz year) st) m = some b →
        b.month = MONTH_LABELS.getD m (toString (m + 1)) := by
  intro rows
  induction rows with
  | nil => intro st h; exact h
  | cons r rest ih =>
    intro st h
    refine ih (cashStep tz year st r) ?_
    intro m b hb
    cases hk : rowMonthKey tz year r with
    | none => rw [cashStep_of_key_none st hk] at hb; exact h m b hb
    | some m2 =>
      obtain ⟨b2, hb2, hmon⟩ := cashStep_of_key_some st hk
      rw [hb2] at hb
      unfold mapSet at hb
      by_cases he : m = m2
      · subst he
        rw [if_pos rfl] at hb
        injection hb with hb
        subst hb
        rw [hmon]
        cases hsm : st m with
        | none => simp [hsm, initMonthRow]
        | some b3 => simp only [hsm, Option.getD_some]; exact h m b3 hsm
      · rw [if_neg he] at hb
        exact h m b hb

/-- C7: with a (truthy) target year, aggregation returns exactly 12
buckets; the result is the calendar-ordered materialization of the
month map with all-zero `initMonthRow` buckets for empty months; every
bucket carries its calendar month label; months with no contributing
row are exactly the all-zero initial buckets; rows outside the target
year (or without a valid date) contribute nothing (aggregating the
year-filtered rows gives the same result).  Without a year, the result
is the ascending traversal of exactly the months that have at least one
contributing row (a row with a valid date mapped to that month). -/
theorem claim_C7 :
    (∀ (tz y : Int) (rows : List LedgerRow), y ≠ 0 →
      (computeMonthlyCashflow tz rows (some y)).length = 12) ∧
    (∀ (tz y : Int) (rows : List LedgerRow), y ≠ 0 →
      computeMonthlyCashflow tz rows (some y) =
        (List.range 12).map (fun m =>
          ((rows.foldl (cashStep tz (some y)) (fun _ => none)) m).getD (initMonthRow m))) ∧
    (∀ (tz y : Int) (rows : List LedgerRow) (i : Nat), y ≠ 0 → i < 12 →
      ((computeMonthlyCashflow tz rows (some y)).getD i (initMonthRow 0)).month =
        MONTH_LABELS.getD i (toString (i + 1))) ∧
    (∀ (tz y : Int) (rows : List LedgerRow) (i : Nat), y ≠ 0 → i < 12 →
      (¬ ∃ r ∈ rows, rowMonthKey tz (some y) r = some i) →
      (computeMonthlyCashflow tz rows (some y)).getD i (initMonthRow 0) = initMonthRow i) ∧
    (∀ (tz y : Int) (rows : List LedgerRow), y ≠ 0 →
      computeMonthlyCashflow tz rows (some y) =
        computeMonthlyCashflow tz
          (rows.filter (fun r =>
            match r.DATE with
            | some ms => getFullYearLocal tz ms == y
            | none => false)) (some y)) ∧
    (∀ (tz : Int) (rows : List LedgerRow),
      computeMonthlyCashflow tz rows none =
        (List.range 12).filterMap (rows.foldl (cashStep tz none) (fun _ => none))) ∧
    (∀ (tz : Int) (rows : List LedgerRow) (m : Nat),
      ((rows.foldl (cashStep tz none) (fun _ => none)) m).isSome = true ↔
        ∃ r ∈ rows, rowMonthKey tz none r = some m) := by
  have hyr : ∀ y : Int, y ≠ 0 → yearTruthy (some y) = true := by
    intro y hy
    unfold yearTruthy
    simpa using hy
  have heq : ∀ (tz y : Int) (rows : List LedgerRow), y ≠ 0 →
      computeMonthlyCashflow tz rows (some y) =
        (List.range 12).map (fun m =>
          ((rows.foldl (cashStep tz (some y)) (fun _ => none)) m).getD (initMonthRow m)) := by
    intro tz y rows hy
    unfold computeMonthlyCashflow
    rw [hyr y hy]
    rfl
  refine ⟨?_, heq, ?_, ?_, ?_, ?_, ?_⟩
  · intro tz y rows hy
    rw [heq tz y rows hy]
    rw [List.length_map, List.length_range]
  · intro tz y rows i hy hi
    rw [heq tz y rows hy]
    rw [List.getD_eq_getElem?_getD]
    rw [List.getElem?_map]
    rw [List.getElem?_range hi]
    simp only [Option.map_some', Option.getD_some]
    cases hb : (rows.foldl (cashStep tz (some y)) (fun _ => none)) i with
    | none => simp [initMonthRow]
    | some b =>
      simp only [Option.getD_some]
      exact monthLabel_invariant rows _ (by intro m b2 hb2; cases hb2) i b hb
  · intro tz y rows i hy hi hno
    rw [heq tz y rows hy]
    rw [List.getD_eq_getElem?_getD, List.getElem?_map, List.getElem?_range hi]
    simp only [Option.map_some', Option.getD_some]
    cases hb : (rows.foldl (cashStep tz (some y)) (fun _ => none)) i with
    | none => simp
    | some b =>
      exfalso
      apply hno
      have := (foldl_cashStep_isSome rows (fun _ => none) i).mp (by rw [hb]; rfl)
      rcases this with hs | hex
      · cases hs
      · exact hex
  · intro tz y rows hy
    unfold computeMonthlyCashflow
    rw [foldl_eq_foldl_filter (cashStep tz (some y))
      (fun r => match r.DATE with
        | some ms => getFullYearLocal tz ms == y
        | none => false)
      ?_ rows (fun _ => none)]
    intro st r hp
    dsimp only [] at hp
    apply cashStep_of_key_none
    unfold rowMonthKey
    cases hd : r.DATE with
    | none => rfl
    | some ms =>
      rw [hd] at hp
      dsimp only [] at hp ⊢
      have hcond : (yearTruthy (some y) && (getFullYearLocal tz ms != (some y).getD 0)) =
          true := by
        rw [hyr y hy]
        simp only [Bool.true_and, Option.getD_some]
        simpa using hp
      rw [if_pos hcond]
  · intro tz rows
    unfold computeMonthlyCashflow
    rw [show yearTruthy none = false from rfl]
    simp
  · intro tz rows m
    rw [foldl_cashStep_isSome rows (fun _ => none) m]
    simp

/-- Closed instance of C7: the year-2024 aggregation of a single
January-2024 deposit row has 12 buckets. -/
theorem claim_C7_witness :
    (computeMonthlyCashflow 0
      [{ CD := "OR", NUMBER := "1", DATE := some 1705406400000, DUE_DATE := none,
         PARTICULARS := "FUTURE TRANSACTION - DEPOSIT", SECURITY := "", NO_OF_SHARES := none,
         CURRENCY := "PHP", UNIT_PRICE := none, FX_AMT := none, FX_RUNNING_BAL := none,
         PHP_DEBIT := none, PHP_CREDIT := some (.fin ⟨10000, 0⟩), PHP_RUNNING_BAL := none }]
      (some 2024)).length = 12 :=
  claim_C7.1 0 2024 _ (by decide)

lemma addMoney_fin_ne (t c : Dec) (h : c.m ≠ 0) :
    addMoney (.fin t) (.fin c) = some (.fin (t.add c)) := by
  unfold addMoney jnumTruthy jnumFinite
  rw [if_neg (by simp [h])]
  rfl

lemma addMoney_fin_zero (t : JNum) (c : Dec) (h : c.m = 0) : addMoney t (.fin c) = none := by
  unfold addMoney jnumTruthy
  rw [if_pos (by simp [h])]

lemma trade_not_dividend {row : LedgerRow} (h : isTradeRow row = true) :
    isDividendRow row = false := by
  unfold isTradeRow at h
  unfold isDividendRow
  simp only [Bool.or_eq_true, beq_iff_eq] at h
  rcases h with he | he <;> rw [he] <;> rfl

/-- C1: the per-row contribution of the aggregator follows the
first-match-wins classification.  Under the row gate (valid date, year
match) and with the bucket and amount components made explicit: a
dividend row (`CM` + cash-dividend/coupon-payment text) adds its entire
credit to `dividends` and nothing else (a zero credit leaves the bucket
unchanged, the same value); a trade row (`BI`/`SI`) contributes nothing;
an `OR` + `FUTURE TRANSACTION` row adds its credit to `deposit` AND its
debit to `withdraw` in the same pass (the dual-contribution case); and
every other non-trade, non-dividend row adds its debit to `withdraw`. -/
theorem claim_C1 :
    ∀ (tz : Int) (year : Option Int) (st : Nat → Option MonthRow) (row : LedgerRow)
      (ms : Int) (m : Nat) (cur : MonthRow) (cq dq dep wd dvd : Dec),
      row.DATE = some ms →
      (yearTruthy year && (getFullYearLocal tz ms != year.getD 0)) = false →
      m = (getMonthIdxLocal tz ms).toNat →
      cur = (st m).getD (initMonthRow m) →
      row.PHP_CREDIT.getD jzero = .fin cq →
      row.PHP_DEBIT.getD jzero = .fin dq →
      cur.deposit = .fin dep →
      cur.withdraw = .fin wd →
      cur.dividends = .fin dvd →
      ((isDividendRow row = true → cq.m ≠ 0 →
        cashStep tz year st row =
          mapSet st m { cur with dividends := .fin (dvd.add cq) }) ∧
       (isDividendRow row = true → cq.m = 0 →
        cashStep tz year st row = mapSet st m cur) ∧
       (isTradeRow row = true →
        cashStep tz year st row = mapSet st m cur) ∧
       (isDividendRow row = false → isTradeRow row = false →
        (jsToUpper (jsTrim row.CD) == "OR" &&
          strStartsWith (jsToUpper (jsTrim row.PARTICULARS)) "FUTURE TRANSACTION") = true →
        cq.m ≠ 0 → dq.m ≠ 0 →
        cashStep tz year st row =
          mapSet st m
            { cur with deposit := .fin (dep.add cq), withdraw := .fin (wd.add dq) }) ∧
       (isDividendRow row = false → isTradeRow row = false →
        (jsToUpper (jsTrim row.CD) == "OR" &&
          strStartsWith (jsToUpper (jsTrim row.PARTICULARS)) "FUTURE TRANSACTION") = false →
        dq.m ≠ 0 →
        cashStep tz year st row = mapSet st m { cur with withdraw := .fin (wd.add dq) })) := by
  intro tz year st row ms m cur cq dq dep wd dvd hdate hgate hm hcur hcq hdq hdep hwd hdvd
  have hstep : cashStep tz year st row =
      (if isDividendRow row then
        mapSet st m { cur with dividends :=
          (addMoney cur.dividends (row.PHP_CREDIT.getD jzero)).getD cur.dividends }
      else if isTradeRow row then mapSet st m cur
      else
        (let current1 :=
          if (jsToUpper (jsTrim row.CD) == "OR" &&
              strStartsWith (jsToUpper (jsTrim row.PARTICULARS)) "FUTURE TRANSACTION") then
            { cur with deposit :=
              (addMoney cur.deposit (row.PHP_CREDIT.getD jzero)).getD cur.deposit }
          else cur
        mapSet st m { current1 with withdraw :=
          (addMoney current1.withdraw (row.PHP_DEBIT.getD jzero)).getD current1.withdraw })) := by
    unfold cashStep
    rw [hdate]
    dsimp only []
    rw [hgate, if_neg (by simp), ← hm, ← hcur]
  refine ⟨?_, ?_, ?_, ?_, ?_⟩
  · intro hdiv hcq0
    rw [hstep, if_pos hdiv, hdvd, hcq, addMoney_fin_ne dvd cq hcq0]
    rfl
  · intro hdiv hcq0
    rw [hstep, if_pos hdiv, hcq, addMoney_fin_zero _ cq hcq0]
    rfl
  · intro htr
    rw [hstep, if_neg (by simp [trade_not_dividend htr]), if_pos htr]
  · intro hdiv htr hfut hcq0 hdq0
    rw [hstep, if_neg (by simp [hdiv]), if_neg (by simp [htr])]
    dsimp only []
    rw [if_pos hfut, hcq, hdep, addMoney_fin_ne dep cq hcq0]
    dsimp only [Option.getD_some]
    rw [hdq, hwd, addMoney_fin_ne wd dq hdq0]
    rfl
  · intro hdiv htr hfut hdq0
    rw [hstep, if_neg (by simp [hdiv]), if_neg (by simp [htr])]
    dsimp only []
    rw [if_neg (by simp [hfut]), hdq, hwd, addMoney_fin_ne wd dq hdq0]
    rfl

/-- Closed instance of C1's dual-contribution case: the witness row adds
its credit to `deposit` and its debit to `withdraw` in the same pass. -/
theorem claim_C1_witness :
    cashStep 0 (some 2024) (fun _ => none) c1WitnessRow =
      mapSet (fun _ => none) 0
        { initMonthRow 0 with
          deposit := .fin (Dec.add ⟨0, 0⟩ ⟨10000, 0⟩),
          withdraw := .fin (Dec.add ⟨0, 0⟩ ⟨50, 0⟩) } :=
  (claim_C1 0 (some 2024) (fun _ => none) c1WitnessRow 1705406400000 0 (initMonthRow 0)
    ⟨10000, 0⟩ ⟨50, 0⟩ ⟨0, 0⟩ ⟨0, 0⟩ ⟨0, 0⟩
    rfl (by decide) (by decide) rfl (by decide) (by decide) rfl rfl rfl).2.2.2.1
    (by decide) (by decide) (by decide) (by decide) (by decide)

lemma addMoney_getD_finite (t a : JNum) (h : jnumFinite t = true) :
    jnumFinite ((addMoney t a).getD t) = true := by
  unfold addMoney
  split
  · simpa using h
  · rename_i hg
    simp only [Option.getD_some]
    cases t with
    | fin td =>
      cases a with
      | fin ad => rfl
      | nan => exact absurd rfl hg
      | inf => exact absurd rfl hg
      | ninf => exact absurd rfl hg
    | nan => exact absurd h (by simp [jnumFinite])
    | inf => exact absurd h (by simp [jnumFinite])
    | ninf => exact absurd h (by simp [jnumFinite])

lemma cashStep_finite_pres {tz : Int} {year : Option Int}
    (st : Nat → Option MonthRow) (row : LedgerRow)
    (h : ∀ m b, st m = some b →
      jnumFinite b.deposit = true ∧ jnumFinite b.withdraw = true ∧
      jnumFinite b.dividends = true) :
    ∀ m b, (cashStep tz year st row) m = some b →
      jnumFinite b.deposit = true ∧ jnumFinite b.withdraw = true ∧
      jnumFinite b.dividends = true := by
  intro m b hb
  unfold cashStep at hb
  cases hdd : row.DATE with
  | none =>
    rw [hdd] at hb
    exact h m b hb
  | some ms =>
    rw [hdd] at hb
    dsimp only [] at hb
    by_cases hy : (yearTruthy year && (getFullYearLocal tz ms != year.getD 0)) = true
    · rw [if_pos hy] at hb
      exact h m b hb
    · rw [if_neg hy] at hb
      generalize hmi : (getMonthIdxLocal tz ms).toNat = mi at hb
      have hcur :
          jnumFinite ((st mi).getD (initMonthRow mi)).deposit = true ∧
          jnumFinite ((st mi).getD (initMonthRow mi)).withdraw = true ∧
          jnumFinite ((st mi).getD (initMonthRow mi)).dividends = true := by
        cases hsm : st mi with
        | none => simp [hsm, initMonthRow, jnumFinite]
        | some b3 => simpa [hsm] using h mi b3 hsm
      by_cases hdv : isDividendRow row = true
      · rw [if_pos hdv] at hb
        unfold mapSet at hb
        by_cases hem : m = mi
        · subst hem
          rw [if_pos rfl] at hb
          injection hb with hb
          subst hb
          exact ⟨hcur.1, hcur.2.1, addMoney_getD_finite _ _ hcur.2.2⟩
        · rw [if_neg hem] at hb
          exact h m b hb
      · rw [if_neg hdv] at hb
        by_cases htr : isTradeRow row = true
        · rw [if_pos htr] at hb
          unfold mapSet at hb
          by_cases hem : m = mi
          · subst hem
            rw [if_pos rfl] at hb
            injection hb with hb
            subst hb
            exact hcur
          · rw [if_neg hem] at hb
            exact h m b hb
        · rw [if_neg htr] at hb
          split at hb
          · unfold mapSet at hb
            by_cases hem : m = mi
            · subst hem
              rw [if_pos rfl] at hb
              injection hb with hb
              subst hb
              exact ⟨addMoney_getD_finite _ _ hcur.1,
                addMoney_getD_finite _ _ hcur.2.1, hcur.2.2⟩
            · rw [if_neg hem] at hb
              exact h m b hb
          · unfold mapSet at hb
            by_cases hem : m = mi
            · subst hem
              rw [if_pos rfl] at hb
              injection hb with hb
              subst hb
              exact ⟨hcur.1, addMoney_getD_finite _ _ hcur.2.1, hcur.2.2⟩
            · rw [if_neg hem] at hb
              exact h m b hb

lemma foldl_cashStep_finite {tz : Int} {year : Option Int} :
    ∀ (rows : List LedgerRow) (st : Nat → Option MonthRow),
      (∀ m b, st m = some b →
        jnumFinite b.deposit = true ∧ jnumFinite b.withdraw = true ∧
        jnumFinite b.dividends = true) →
      ∀ m b, (rows.foldl (cashStep tz year) st) m = some b →
        jnumFinite b.deposit = true ∧ jnumFinite b.withdraw = true ∧
        jnumFinite b.dividends = true := by
  intro rows
  induction rows with
  | nil => intro st h; exact h
  | cons r rest ih =>
    intro st h
    exact ih (cashStep tz year st r) (cashStep_finite_pres st r h)

/-- C10 (implicit): every bucket of every aggregation result has finite
deposit, withdraw and dividends fields, for every input row sequence —
including rows whose amounts are absent, null, zero, NaN or infinite —
because `addMoney` leaves the target unchanged (second conjunct) when
the contribution is falsy or not finite, so non-finite values never
enter a bucket sum. -/
theorem claim_C10 :
    (∀ (tz : Int) (rows : List LedgerRow) (year : Option Int),
      ∀ b ∈ computeMonthlyCashflow tz rows year,
        jnumFinite b.deposit = true ∧ jnumFinite b.withdraw = true ∧
        jnumFinite b.dividends = true) ∧
    (∀ t a : JNum, (jnumTruthy a && jnumFinite a) = false → (addMoney t a).getD t = t) := by
  constructor
  · intro tz rows year b hb
    have hinv := @foldl_cashStep_finite tz year rows (fun _ => none)
      (by intro m b2 h2; cases h2)
    unfold computeMonthlyCashflow at hb
    dsimp only [] at hb
    split at hb
    · rw [List.mem_map] at hb
      obtain ⟨mm, _, hbm⟩ := hb
      cases hsm : (rows.foldl (cashStep tz year) (fun _ => none)) mm with
      | none =>
        rw [hsm] at hbm
        simp only [Option.getD_none] at hbm
        rw [← hbm]
        simp [initMonthRow, jnumFinite]
      | some b3 =>
        rw [hsm] at hbm
        simp only [Option.getD_some] at hbm
        rw [← hbm]
        exact hinv mm b3 hsm
    · rw [List.mem_filterMap] at hb
      obtain ⟨mm, _, hsm⟩ := hb
      exact hinv mm b hsm
  · intro t a h
    unfold addMoney
    rw [if_pos]
    · rfl
    · cases ht : jnumTruthy a <;> cases hf : jnumFinite a <;> simp_all

/-- Closed instance of C10 on a row carrying a NaN debit: the produced
bucket keeps finite (zero) fields. -/
theorem claim_C10_witness :
    jnumFinite (initMonthRow 0).deposit = true ∧
    jnumFinite (initMonthRow 0).withdraw = true ∧
    jnumFinite (initMonthRow 0).dividends = true :=
  claim_C10.1 0 [c10WitnessRow] none (initMonthRow 0) (by decide)

/-- C9: the loader dispatches by lower-cased filename extension.  Empty
byte input fails with the missing-data error before anything else; an
unrecognized extension fails with the unsupported-format error; a `.csv`
name routes through the delimited-text adapter and a `.xlsx`/`.xls` name
through the workbook decode plus worksheet adapter, each followed by the
schema-completeness check; the check requires the presence (membership
in the sample row's key set, not non-emptiness of values) of CD, DATE,
PARTICULARS, PHP_DEBIT and PHP_CREDIT, failing with a schema error that
names exactly the missing fields, and rejecting an empty row list. -/
theorem claim_C9 :
    (∀ (xr : List Nat → Except String (List (List JVal))) (tz : Int) (filename : String),
      loadFmsecLedgerRowsFromBuffer xr tz filename [] = .error "Missing file data") ∧
    (∀ (xr : List Nat → Except String (List (List JVal))) (tz : Int)
        (filename : String) (buffer : List Nat), buffer ≠ [] →
      getExtension filename ≠ "csv" → getExtension filename ≠ "xlsx" →
      getExtension filename ≠ "xls" →
      loadFmsecLedgerRowsFromBuffer xr tz filename buffer =
        .error "Unsupported file type. Upload a .csv or .xlsx") ∧
    (∀ (xr : List Nat → Except String (List (List JVal))) (tz : Int)
        (filename : String) (buffer : List Nat), buffer ≠ [] →
      getExtension filename = "csv" →
      loadFmsecLedgerRowsFromBuffer xr tz filename buffer =
        (loadFmsecLedgerRowsFromCsvText tz (utf8DecodeAscii buffer)).bind (fun rows =>
          (validateFmsecLedgerHeaders (rows.map (fun _ => ledgerRowObjectKeys))).bind
            (fun _ => .ok rows))) ∧
    (∀ (xr : List Nat → Except String (List (List JVal))) (tz : Int)
        (filename : String) (buffer : List Nat), buffer ≠ [] →
      (getExtension filename = "xlsx" ∨ getExtension filename = "xls") →
      loadFmsecLedgerRowsFromBuffer xr tz filename buffer =
        (xr buffer).bind (fun cells =>
          (parseLedgerRowsFromWorksheet tz cells).bind (fun rows =>
            (validateFmsecLedgerHeaders (rows.map (fun _ => ledgerRowObjectKeys))).bind
              (fun _ => .ok rows)))) ∧
    validateFmsecLedgerHeaders [] = .error "No ledger rows found" ∧
    (∀ (sample : List String) (rest : List (List String)),
      validateFmsecLedgerHeaders (sample :: rest) =
        (if (ledgerRequiredColumns.filter (fun k => !sample.contains k)).isEmpty then .ok ()
         else .error ("Missing required columns: " ++
           String.intercalate ", "
             (ledgerRequiredColumns.filter (fun k => !sample.contains k))))) ∧
    validateFmsecLedgerHeaders [["CD", "NUMBER", "DATE"]] =
      .error "Missing required columns: PARTICULARS, PHP_DEBIT, PHP_CREDIT" ∧
    validateFmsecLedgerHeaders [ledgerRowObjectKeys] = .ok () := by
  refine ⟨fun xr tz filename => rfl, ?_, ?_, ?_, rfl, fun sample rest => rfl, by decide, rfl⟩
  · intro xr tz filename buffer hb h1 h2 h3
    cases buffer with
    | nil => exact absurd rfl hb
    | cons x xs =>
      unfold loadFmsecLedgerRowsFromBuffer
      rw [if_neg (by simp), if_neg (by simpa using h1),
        if_neg (by simp only [Bool.or_eq_true, beq_iff_eq]; rintro (h | h); exacts [h2 h, h3 h])]
  · intro xr tz filename buffer hb h1
    cases buffer with
    | nil => exact absurd rfl hb
    | cons x xs =>
      unfold loadFmsecLedgerRowsFromBuffer
      rw [if_neg (by simp), if_pos (by rw [h1]; decide)]
      rfl
  · intro xr tz filename buffer hb hor
    cases buffer with
    | nil => exact absurd rfl hb
    | cons x xs =>
      unfold loadFmsecLedgerRowsFromBuffer
      rcases hor with h | h
      · rw [if_neg (by simp), if_neg (by rw [h]; decide), if_pos (by rw [h]; decide)]
        rfl
      · rw [if_neg (by simp), if_neg (by rw [h]; decide), if_pos (by rw [h]; decide)]
        rfl

/-- Closed instance of C9's unsupported-extension branch: a `.pdf` name
with non-empty bytes is rejected with the unsupported-format error. -/
theorem claim_C9_witness :
    loadFmsecLedgerRowsFromBuffer (fun _ => .error "unused") 0 "ledger.pdf" [65] =
      .error "Unsupported file type. Upload a .csv or .xlsx" :=
  claim_C9.2.1 (fun _ => .error "unused") 0 "ledger.pdf" [65]
    (by decide) (by decide) (by decide) (by decide)

lemma dropWhile_all_false {p : Char → Bool} :
    ∀ {l : List Char}, (∀ c ∈ l, p c = false) → l.dropWhile p = l := by
  intro l h
  cases l with
  | nil => rfl
  | cons x xs => simp [List.dropWhile_cons, h x (by simp)]

lemma jsTrimList_of_no_space (l : List Char) (h : ∀ c ∈ l, jsSpaceChar c = false) :
    jsTrimList l = l := by
  unfold jsTrimList
  rw [dropWhile_all_false h,
    dropWhile_all_false (by intro c hc; exact h c (List.mem_reverse.mp hc)),
    List.reverse_reverse]

lemma digit_beq_false (c d : Char) (hc : c.isDigit = true) (hd : d.isDigit = false) :
    (c == d) = false := by
  cases h : c == d
  · rfl
  · have hcd : c = d := eq_of_beq h
    rw [hcd, hd] at hc
    exact absurd hc (by simp)

lemma cons_beq_false {a b : Char} (l m : List Char) (h : (a == b) = false) :
    ((a :: l) == (b :: m)) = false := by
  show (a == b && l == m) = false
  rw [h]
  rfl

lemma takeWhile_all {p : Char → Bool} :
    ∀ (l : List Char), (∀ c ∈ l, p c = true) → l.takeWhile p = l := by
  intro l
  induction l with
  | nil => intro _; rfl
  | cons x xs ih =>
    intro h
    simp [List.takeWhile_cons, h x (by simp), ih (fun c hc => h c (by simp [hc]))]

lemma dropWhile_all {p : Char → Bool} :
    ∀ (l : List Char), (∀ c ∈ l, p c = true) → l.dropWhile p = [] := by
  intro l
  induction l with
  | nil => intro _; rfl
  | cons x xs ih =>
    intro h
    simp [List.dropWhile_cons, h x (by simp), ih (fun c hc => h c (by simp [hc]))]

lemma takeWhile_all_append {p : Char → Bool} :
    ∀ (l1 : List Char) (x : Char) (l2 : List Char),
      (∀ c ∈ l1, p c = true) → p x = false → ((l1 ++ x :: l2).takeWhile p) = l1 := by
  intro l1
  induction l1 with
  | nil => intro x l2 _ hx; simp [List.takeWhile_cons, hx]
  | cons c cs ih =>
    intro x l2 h hx
    simp [List.takeWhile_cons, h c (by simp), ih x l2 (fun d hd => h d (by simp [hd])) hx]

lemma dropWhile_all_append {p : Char → Bool} :
    ∀ (l1 : List Char) (x : Char) (l2 : List Char),
      (∀ c ∈ l1, p c = true) → p x = false → ((l1 ++ x :: l2).dropWhile p) = x :: l2 := by
  intro l1
  induction l1 with
  | nil => intro x l2 _ hx; simp [List.dropWhile_cons, hx]
  | cons c cs ih =>
    intro x l2 h hx
    simp [List.dropWhile_cons, h c (by simp), ih x l2 (fun d hd => h d (by simp [hd])) hx]

lemma jsDecBody_digits_frac (ds f : List Char) (hds : ds ≠ [])
    (hda : ∀ c ∈ ds, c.isDigit = true) (hf : f ≠ [])
    (hfa : ∀ c ∈ f, c.isDigit = true) :
    jsDecBody (ds ++ '.' :: f) =
      some (Dec.norm (natOfDigits ds * (10 : Int) ^ f.length + natOfDigits f) f.length) := by
  unfold jsDecBody
  rw [takeWhile_all_append ds '.' f hda (by decide),
    dropWhile_all_append ds '.' f hda (by decide)]
  dsimp only []
  rw [if_pos (show ('.' == '.') = true from rfl)]
  dsimp only []
  rw [takeWhile_all f hfa, dropWhile_all f hfa]
  rw [if_neg (by cases ds with | nil => exact absurd rfl hds | cons c cs => simp)]

lemma digit_not_space {c : Char} (h : c.isDigit = true) : jsSpaceChar c = false := by
  have h1 : 48 ≤ c.toNat ∧ c.toNat ≤ 57 := by simp [Char.isDigit] at h; exact ⟨h.1, h.2⟩
  cases hs : jsSpaceChar c
  · rfl
  · exfalso
    revert hs
    unfold jsSpaceChar
    dsimp only []
    generalize c.toNat = n at h1 ⊢
    intro hs
    simp only [Bool.or_eq_true, beq_iff_eq, Bool.and_eq_true, decide_eq_true_eq] at hs
    omega

lemma list_not_nil_split {α : Type} {l : List α} (h : l ≠ []) : ∃ d l2, l = d :: l2 := by
  cases l with
  | nil => exact absurd rfl h
  | cons a b => exact ⟨a, b, rfl⟩

lemma ne_true_of_false {b : Bool} (h : b = false) : ¬(b = true) := by simp [h]

lemma jsNumFallback_digit (d : Char) (rest0 : List Char) (hd : d.isDigit = true)
    (hdb : ∃ q, jsDecBody (d :: rest0) = some q) :
    ∃ q, jsNumFallback d rest0 = .fin q := by
  obtain ⟨q, hq⟩ := hdb
  unfold jsNumFallback
  rw [if_neg (ne_true_of_false (digit_beq_false d '-' hd (by decide))),
    if_neg (ne_true_of_false (digit_beq_false d '+' hd (by decide)))]
  dsimp only []
  rw [if_neg (ne_true_of_false
    (cons_beq_false rest0 "nfinity".data (digit_beq_false d 'I' hd (by decide))))]
  rw [hq]
  exact ⟨q, rfl⟩

lemma jsNumberOfString_digits_frac (ds f : List Char) (hds : ds ≠ [])
    (hda : ∀ c ∈ ds, c.isDigit = true) (hf : f ≠ [])
    (hfa : ∀ c ∈ f, c.isDigit = true) :
    ∃ q, jsNumberOfString ⟨ds ++ '.' :: f⟩ = .fin q := by
  have hns : ∀ c ∈ ds ++ '.' :: f, jsSpaceChar c = false := by
    intro c hc
    rcases List.mem_append.mp hc with h | h
    · exact digit_not_space (hda c h)
    · rcases List.mem_cons.mp h with h | h
      · subst h; decide
      · exact digit_not_space (hfa c h)
  obtain ⟨d, ds2, rfl⟩ := list_not_nil_split hds
  have hdb : ∃ q, jsDecBody (d :: (ds2 ++ '.' :: f)) = some q := by
    rw [show d :: (ds2 ++ '.' :: f) = (d :: ds2) ++ '.' :: f from rfl]
    exact ⟨_, jsDecBody_digits_frac (d :: ds2) f (by simp) hda hf hfa⟩
  unfold jsNumberOfString
  dsimp only []
  rw [jsTrimList_of_no_space _ hns, List.cons_append]
  cases ds2 with
  | nil =>
    obtain ⟨q, hq⟩ := hdb
    rw [List.nil_append] at hq ⊢
    dsimp only []
    by_cases hd0 : (d == '0') = true
    · rw [if_pos hd0, if_neg (by decide), if_neg (by decide), if_neg (by decide)]
      rw [hq]
      exact ⟨q, rfl⟩
    · rw [if_neg hd0]
      exact jsNumFallback_digit d ('.' :: f) (hda d (by simp)) ⟨q, hq⟩
  | cons d2 ds3 =>
    obtain ⟨q, hq⟩ := hdb
    rw [List.cons_append] at hq ⊢
    dsimp only []
    have hd2 : d2.isDigit = true := hda d2 (by simp)
    by_cases hd0 : (d == '0') = true
    · rw [if_pos hd0,
        if_neg (ne_true_of_false (by rw [digit_beq_false d2 'x' hd2 (by decide),
          digit_beq_false d2 'X' hd2 (by decide)]; rfl)),
        if_neg (ne_true_of_false (by rw [digit_beq_false d2 'o' hd2 (by decide),
          digit_beq_false d2 'O' hd2 (by decide)]; rfl)),
        if_neg (ne_true_of_false (by rw [digit_beq_false d2 'b' hd2 (by decide),
          digit_beq_false d2 'B' hd2 (by decide)]; rfl))]
      rw [hq]
      exact ⟨q, rfl⟩
    · rw [if_neg hd0]
      exact jsNumFallback_digit d (d2 :: (ds3 ++ '.' :: f)) (hda d (by simp)) ⟨q, hq⟩

lemma jsNumberOfString_neg_digits_frac (ds f : List Char) (hds : ds ≠ [])
    (hda : ∀ c ∈ ds, c.isDigit = true) (hf : f ≠ [])
    (hfa : ∀ c ∈ f, c.isDigit = true) :
    ∃ q, jsNumberOfString ⟨'-' :: (ds ++ '.' :: f)⟩ = .fin q := by
  have hns : ∀ c ∈ '-' :: (ds ++ '.' :: f), jsSpaceChar c = false := by
    intro c hc
    rcases List.mem_cons.mp hc with h | h
    · subst h; decide
    · rcases List.mem_append.mp h with h | h
      · exact digit_not_space (hda c h)
      · rcases List.mem_cons.mp h with h | h
        · subst h; decide
        · exact digit_not_space (hfa c h)
  obtain ⟨d, ds2, rfl⟩ := list_not_nil_split hds
  unfold jsNumberOfString
  dsimp only []
  rw [jsTrimList_of_no_space _ hns, List.cons_append]
  dsimp only []
  rw [if_neg (by decide)]
  unfold jsNumFallback
  rw [if_pos (by decide)]
  dsimp only []
  rw [if_neg (ne_true_of_false (cons_beq_false (ds2 ++ '.' :: f) "nfinity".data
    (digit_beq_false d 'I' (hda d (by simp)) (by decide))))]
  rw [show d :: (ds2 ++ '.' :: f) = (d :: ds2) ++ '.' :: f from rfl,
    jsDecBody_digits_frac (d :: ds2) f (by simp) hda hf hfa]
  exact ⟨_, rfl⟩

lemma digit_pfn {c : Char} (h : c.isDigit = true) :
    (!(c == '(' || c == ')' || c == ',')) = true := by
  rw [digit_beq_false c '(' h (by decide), digit_beq_false c ')' h (by decide),
    digit_beq_false c ',' h (by decide)]
  rfl

lemma parseAmountStr_moneyToken (tok : List Char) (h : moneyTokenShape tok) :
    ∃ q, parseAmountStr ⟨tok⟩ = some q := by
  obtain ⟨op, sg, ds, grps, f1, f2, cp, htok, hop, hsg, hds, hda, hgr, hf1, hf2, hcp⟩ := h
  subst htok
  have hns : ∀ c ∈ op ++ sg ++ ds ++ grps ++ '.' :: f1 :: f2 :: cp, jsSpaceChar c = false := by
    intro c hc
    simp only [List.mem_append, List.mem_cons] at hc
    rcases hc with (((hc | hc) | hc) | hc) | hc | hc | hc | hc
    · rcases hop with rfl | rfl
      · exact absurd hc (by simp)
      · rw [show c = '(' from by simpa using hc]; decide
    · rcases hsg with rfl | rfl
      · exact absurd hc (by simp)
      · rw [show c = '-' from by simpa using hc]; decide
    · exact digit_not_space (hda c hc)
    · rcases hgr c hc with rfl | hd
      · decide
      · exact digit_not_space hd
    · subst hc; decide
    · subst hc; exact digit_not_space hf1
    · subst hc; exact digit_not_space hf2
    · rcases hcp with rfl | rfl
      · exact absurd hc (by simp)
      · rw [show c = ')' from by simpa using hc]; decide
  have hne1 : ((op ++ sg ++ ds ++ grps ++ '.' :: f1 :: f2 :: cp) == ['-']) = false := by
    cases hb : (op ++ sg ++ ds ++ grps ++ '.' :: f1 :: f2 :: cp) == ['-']
    · rfl
    · exfalso
      have heq := eq_of_beq hb
      have hdot : '.' ∈ op ++ sg ++ ds ++ grps ++ '.' :: f1 :: f2 :: cp := by simp
      rw [heq] at hdot
      simp at hdot
  unfold parseAmountStr
  dsimp only []
  rw [jsTrimList_of_no_space _ hns]
  rw [if_neg (by simp)]
  rw [List.filter_eq_self.mpr (fun c hc => by rw [hns c hc]; rfl)]
  rw [if_neg (by rw [hne1]; decide)]
  have hopf : op.filter (fun c => !(c == '(' || c == ')' || c == ',')) = [] := by
    rcases hop with rfl | rfl
    · rfl
    · rfl
  have hsgf : sg.filter (fun c => !(c == '(' || c == ')' || c == ',')) = sg := by
    rcases hsg with rfl | rfl
    · rfl
    · rfl
  have hdsf : ds.filter (fun c => !(c == '(' || c == ')' || c == ',')) = ds :=
    List.filter_eq_self.mpr (fun c hc => digit_pfn (hda c hc))
  have hgrf : grps.filter (fun c => !(c == '(' || c == ')' || c == ',')) =
      grps.filter Char.isDigit := by
    refine List.filter_congr ?_
    intro c hc
    rcases hgr c hc with rfl | hd
    · rfl
    · rw [digit_pfn hd, hd]
  have hcpf : cp.filter (fun c => !(c == '(' || c == ')' || c == ',')) = [] := by
    rcases hcp with rfl | rfl
    · rfl
    · rfl
  simp only [List.filter_append, List.filter_cons, hopf, hsgf, hdsf, hgrf, hcpf,
    digit_pfn hf1, digit_pfn hf2,
    show (!('.' == '(' || '.' == ')' || '.' == ',')) = true from rfl,
    eq_self_iff_true, if_true]
  rw [if_neg (by simp)]
  have hDS : ∀ c ∈ ds ++ grps.filter Char.isDigit, c.isDigit = true := by
    intro c hc
    rcases List.mem_append.mp hc with hc | hc
    · exact hda c hc
    · exact (List.mem_filter.mp hc).2
  have hDSne : ds ++ grps.filter Char.isDigit ≠ [] := by
    intro he
    rcases List.append_eq_nil.mp he with ⟨h1, _⟩
    exact hds h1
  have hF : ∀ c ∈ [f1, f2], c.isDigit = true := by
    intro c hc
    rcases List.mem_cons.mp hc with rfl | hc
    · exact hf1
    · rw [show c = f2 from by simpa using hc]
      exact hf2
  rcases hsg with rfl | rfl
  · obtain ⟨q, hq⟩ := jsNumberOfString_digits_frac (ds ++ grps.filter Char.isDigit) [f1, f2]
      hDSne hDS (by simp) hF
    simp only [List.append_assoc, List.singleton_append, List.cons_append,
      List.nil_append] at hq ⊢
    rw [hq]
    exact ⟨_, rfl⟩
  · obtain ⟨q, hq⟩ := jsNumberOfString_neg_digits_frac (ds ++ grps.filter Char.isDigit) [f1, f2]
      hDSne hDS (by simp) hF
    simp only [List.append_assoc, List.singleton_append, List.cons_append,
      List.nil_append] at hq ⊢
    rw [hq]
    exact ⟨_, rfl⟩

lemma normalizeMoney_moneyToken (tok : List Char) (h : moneyTokenShape tok) :
    ∃ v, normalizeMoney ⟨tok⟩ = some v := by
  obtain ⟨q, hq⟩ := parseAmountStr_moneyToken tok h
  unfold normalizeMoney
  rw [show parseAmount (.str ⟨tok⟩) = parseAmountStr ⟨tok⟩ from rfl, hq]
  exact ⟨_, rfl⟩

lemma moneyGroupsAux_shape :
    ∀ cs : List Char, ∀ c ∈ (moneyGroupsAux cs).1, c = ',' ∨ c.isDigit = true := by
  intro cs
  induction cs using moneyGroupsAux.induct with
  | case1 k a b c rest hcond g r hg ih =>
    intro x hx
    rw [moneyGroupsAux] at hx
    rw [if_pos hcond] at hx
    rw [hg] at hx
    dsimp only [] at hx
    simp only [Bool.and_eq_true, beq_iff_eq] at hcond
    rcases List.mem_cons.mp hx with rfl | hx
    · exact Or.inl hcond.1.1.1
    · rcases List.mem_cons.mp hx with rfl | hx
      · exact Or.inr hcond.1.1.2
      · rcases List.mem_cons.mp hx with rfl | hx
        · exact Or.inr hcond.1.2
        · rcases List.mem_cons.mp hx with rfl | hx
          · exact Or.inr hcond.2
          · rw [hg] at ih
            exact ih x hx
  | case2 k a b c rest hcond =>
    intro x hx
    rw [moneyGroupsAux, if_neg hcond] at hx
    exact absurd hx (by simp)
  | case3 cs h =>
    intro x hx
    rcases cs with _ | ⟨a, _ | ⟨b, _ | ⟨c, _ | ⟨d, rest⟩⟩⟩⟩
    · exact absurd hx (by simp [moneyGroupsAux])
    · exact absurd hx (by simp [moneyGroupsAux])
    · exact absurd hx (by simp [moneyGroupsAux])
    · exact absurd hx (by simp [moneyGroupsAux])
    · exact absurd (h a b c d rest rfl) (by simp)

lemma moneyTailAt_shape (cs tail rest : List Char)
    (h : moneyTailAt cs = some (tail, rest)) :
    ∃ grps f1 f2 cp, tail = grps ++ '.' :: f1 :: f2 :: cp ∧
      (∀ c ∈ grps, c = ',' ∨ c.isDigit = true) ∧
      f1.isDigit = true ∧ f2.isDigit = true ∧ (cp = [] ∨ cp = [')']) := by
  unfold moneyTailAt at h
  rcases hmg : moneyGroupsAux cs with ⟨g, r⟩
  rw [hmg] at h
  dsimp only [] at h
  have hgm : ∀ c ∈ g, c = ',' ∨ c.isDigit = true := by
    intro c hc
    have := moneyGroupsAux_shape cs c
    rw [hmg] at this
    exact this hc
  split at h
  · rename_i p f1 f2 r2
    split at h
    · rename_i hcond
      simp only [Bool.and_eq_true, beq_iff_eq] at hcond
      obtain ⟨⟨hp, h1⟩, h2⟩ := hcond
      subst hp
      split at h
      · rename_i q2 r3
        split at h
        · rename_i hq2
          have hq2e : q2 = ')' := by simpa using hq2
          subst hq2e
          simp only [Option.some.injEq, Prod.mk.injEq] at h
          exact ⟨g, f1, f2, [')'], h.1.symm, hgm, h1, h2, Or.inr rfl⟩
        · simp only [Option.some.injEq, Prod.mk.injEq] at h
          exact ⟨g, f1, f2, [], h.1.symm, hgm, h1, h2, Or.inl rfl⟩
      · simp only [Option.some.injEq, Prod.mk.injEq] at h
        exact ⟨g, f1, f2, [], h.1.symm, hgm, h1, h2, Or.inl rfl⟩
    · exact absurd h (by simp)
  · exact absurd h (by simp)

lemma tryMoneyLen_shape (op sg cs2 : List Char) (k : Nat) (tok rest : List Char)
    (hop : op = [] ∨ op = ['(']) (hsg : sg = [] ∨ sg = ['-']) (hk : k ≠ 0)
    (h : tryMoneyLen op sg cs2 k = some (tok, rest)) : moneyTokenShape tok := by
  unfold tryMoneyLen at h
  dsimp only [] at h
  split at h
  · rename_i hcond
    simp only [Bool.and_eq_true, beq_iff_eq] at hcond
    split at h
    · rename_i tail r htail
      simp only [Option.some.injEq, Prod.mk.injEq] at h
      obtain ⟨grps, f1, f2, cp, htl, hgr, hf1, hf2, hcp⟩ := moneyTailAt_shape _ _ _ htail
      refine ⟨op, sg, cs2.take k, grps, f1, f2, cp, ?_, hop, hsg, ?_, ?_, hgr, hf1, hf2, hcp⟩
      · rw [← h.1, htl]
        simp [List.append_assoc]
      · intro he
        rw [he] at hcond
        exact hk (by simpa using hcond.1.symm)
      · exact fun c hc => List.all_eq_true.mp hcond.2 c hc
    · exact absurd h (by simp)
  · exact absurd h (by simp)

lemma tryMoneyChain_shape (op sg cs2 : List Char) (tok rest : List Char)
    (hop : op = [] ∨ op = ['(']) (hsg : sg = [] ∨ sg = ['-'])
    (h : tryMoneyChain op sg cs2 = some (tok, rest)) : moneyTokenShape tok := by
  unfold tryMoneyChain at h
  rcases h3 : tryMoneyLen op sg cs2 3 with _ | r3
  · rw [h3] at h
    dsimp only [] at h
    rcases h2 : tryMoneyLen op sg cs2 2 with _ | r2
    · rw [h2] at h
      dsimp only [] at h
      exact tryMoneyLen_shape op sg cs2 1 tok rest hop hsg (by decide) h
    · rw [h2] at h
      dsimp only [] at h
      rw [h] at h2
      exact tryMoneyLen_shape op sg cs2 2 tok rest hop hsg (by decide) h2
  · rw [h3] at h
    dsimp only [] at h
    rw [h] at h3
    exact tryMoneyLen_shape op sg cs2 3 tok rest hop hsg (by decide) h3

lemma matchMoneyAt_shape (cs tok rest : List Char)
    (h : matchMoneyAt cs = some (tok, rest)) : moneyTokenShape tok := by
  rcases cs with _ | ⟨c0, r0⟩
  · rw [show matchMoneyAt [] = tryMoneyChain [] [] [] from rfl] at h
    exact tryMoneyChain_shape [] [] [] tok rest (Or.inl rfl) (Or.inl rfl) h
  · unfold matchMoneyAt at h
    dsimp only [] at h
    by_cases hc0 : (c0 == '(') = true
    · rw [if_pos hc0] at h
      dsimp only [] at h
      have hc0e : c0 = '(' := eq_of_beq hc0
      subst hc0e
      rcases r0 with _ | ⟨c1, r1⟩
      · exact tryMoneyChain_shape _ _ _ tok rest (Or.inr rfl) (Or.inl rfl) h
      · dsimp only [] at h
        by_cases hc1 : (c1 == '-') = true
        · rw [if_pos hc1] at h
          have hc1e : c1 = '-' := eq_of_beq hc1
          subst hc1e
          exact tryMoneyChain_shape _ _ _ tok rest (Or.inr rfl) (Or.inr rfl) h
        · rw [if_neg hc1] at h
          exact tryMoneyChain_shape _ _ _ tok rest (Or.inr rfl) (Or.inl rfl) h
    · rw [if_neg hc0] at h
      dsimp only [] at h
      by_cases hc0m : (c0 == '-') = true
      · rw [if_pos hc0m] at h
        have hc0e : c0 = '-' := eq_of_beq hc0m
        subst hc0e
        exact tryMoneyChain_shape _ _ _ tok rest (Or.inl rfl) (Or.inr rfl) h
      · rw [if_neg hc0m] at h
        exact tryMoneyChain_shape _ _ _ tok rest (Or.inl rfl) (Or.inl rfl) h

lemma findMoneyAux_shape :
    ∀ (fuel : Nat) (cs : List Char) (i : Nat) (t : String) (j : Nat),
      (t, j) ∈ findMoneyAux fuel cs i → moneyTokenShape t.data := by
  intro fuel
  induction fuel with
  | zero => intro cs i t j h; exact absurd h (by simp [findMoneyAux])
  | succ n ih =>
    intro cs i t j h
    cases cs with
    | nil => exact absurd h (by simp [findMoneyAux])
    | cons c rest =>
      rw [findMoneyAux] at h
      rcases hm : matchMoneyAt (c :: rest) with _ | ⟨tokp⟩
      · rw [hm] at h
        exact ih rest (i + 1) t j h
      · rw [hm] at h
        rcases List.mem_cons.mp h with he | he
        · have ht : t = ⟨tokp.1⟩ := congrArg Prod.fst he
          rw [ht]
          exact matchMoneyAt_shape (c :: rest) tokp.1 tokp.2 (by rw [hm])
        · exact ih tokp.2 (i + tokp.1.length) t j he

lemma findMoneyTokens_shape (line : String) (t : String) (j : Nat)
    (h : (t, j) ∈ findMoneyTokensWithIndex line) : moneyTokenShape t.data := by
  unfold findMoneyTokensWithIndex at h
  exact findMoneyAux_shape _ _ _ t j h

lemma pickTok_mem (line : String)
    (h : (findMoneyTokensWithIndex line).isEmpty = false) :
    pickTok line ∈ findMoneyTokensWithIndex line := by
  unfold pickTok
  have hlen : 0 < (findMoneyTokensWithIndex line).length := by
    cases hT : findMoneyTokensWithIndex line
    · rw [hT] at h
      exact absurd h (by simp)
    · simp
  dsimp only []
  split
  · rename_i h2
    have hidx : (findMoneyTokensWithIndex line).length - 2 <
        (findMoneyTokensWithIndex line).length := by omega
    rw [List.getD_eq_getElem?_getD, List.getElem?_eq_getElem hidx]
    exact List.getElem_mem _
  · rw [List.getD_eq_getElem?_getD, List.getElem?_eq_getElem hlen]
    exact List.getElem_mem _

lemma normalizeMoney_pickTok (line : String)
    (h : (findMoneyTokensWithIndex line).isEmpty = false) :
    ∃ v, normalizeMoney (pickTok line).1 = some v := by
  obtain ⟨j, hj⟩ : ∃ j, ((pickTok line).1, j) ∈ findMoneyTokensWithIndex line :=
    ⟨(pickTok line).2, pickTok_mem line h⟩
  have := findMoneyTokens_shape line (pickTok line).1 _ hj
  obtain ⟨v, hv⟩ := normalizeMoney_moneyToken _ this
  exact ⟨v, by rw [← hv]⟩

lemma extractMovementAux_skip (l : String) (rest : List String)
    (hskip : hasPhpMarker l = false ∨ (findMoneyTokensWithIndex l).isEmpty = true) :
    extractMovementAux (l :: rest) = extractMovementAux rest := by
  conv_lhs => rw [extractMovementAux]
  rcases hskip with hp | ht
  · rw [hp]
    simp
  · by_cases hp : hasPhpMarker l = true
    · rw [hp]
      simp only [Bool.not_true]
      rw [if_neg (by simp)]
      rw [ht, if_pos rfl]
    · rw [show hasPhpMarker l = false from by revert hp; cases hasPhpMarker l <;> simp]
      simp

lemma extractMovementAux_hit (l : String) (rest : List String)
    (hp : hasPhpMarker l = true)
    (ht : (findMoneyTokensWithIndex l).isEmpty = false) :
    extractMovementAux (l :: rest) = normalizeMoney (pickTok l).1 := by
  obtain ⟨v, hv⟩ := normalizeMoney_pickTok l ht
  conv_lhs => rw [extractMovementAux]
  rw [hp]
  simp only [Bool.not_true]
  rw [if_neg (by simp)]
  rw [ht, if_neg (by simp)]
  rw [show (if 2 ≤ (findMoneyTokensWithIndex l).length then
      (findMoneyTokensWithIndex l).getD ((findMoneyTokensWithIndex l).length - 2) ("", 0)
    else (findMoneyTokensWithIndex l).getD 0 ("", 0)) = pickTok l from rfl]
  rw [hv]

lemma extractMovementAux_none (lines : List String)
    (h : ∀ l ∈ lines, hasPhpMarker l = false ∨ (findMoneyTokensWithIndex l).isEmpty = true) :
    extractMovementAux lines = none := by
  induction lines with
  | nil => rfl
  | cons l rest ih =>
    rw [extractMovementAux_skip l rest (h l (by simp))]
    exact ih (fun x hx => h x (by simp [hx]))

lemma extractMovementAux_skip_all (skips : List String) (tail : List String)
    (h : ∀ l ∈ skips, hasPhpMarker l = false ∨ (findMoneyTokensWithIndex l).isEmpty = true) :
    extractMovementAux (skips ++ tail) = extractMovementAux tail := by
  induction skips with
  | nil => rfl
  | cons l rest ih =>
    rw [List.cons_append, extractMovementAux_skip l (rest ++ tail) (h l (by simp))]
    exact ih (fun x hx => h x (by simp [hx]))

lemma parseTransactionBlock_no_movement (blockLines : List String) (dci : Option Nat)
    (row : LedgerRow)
    (hmov : extractMovementAmountFromPhpLine blockLines = none)
    (h : parseTransactionBlock blockLines dci = some row) :
    row.PHP_DEBIT = some (.fin ⟨0, 0⟩) ∧ row.PHP_CREDIT = some (.fin ⟨0, 0⟩) := by
  unfold parseTransactionBlock at h
  split at h
  · exact absurd h (by simp)
  · rename_i first rest2
    split at h
    · exact absurd h (by simp)
    · rename_i dateStr reference remainder hfl
      split at h
      · exact absurd h (by simp)
      · rename_i ms hms
        dsimp only [] at h
        rw [hmov] at h
        simp only [Option.some.injEq] at h
        subst h
        exact ⟨rfl, rfl⟩

/-- C4: every token the money regex produces is parseable (`normalizeMoney`
never rejects it), so the movement amount of a finalized block is decided
by the first line, scanning from the last line backward, that contains the
`PHP` currency marker and at least one money token: the movement is the
normalized second-to-last token of that line when two or more tokens are
present, otherwise its only token (`pickTok`); when no line has the marker
together with a token, the movement is absent and the parsed row carries 0
in both PHP_DEBIT and PHP_CREDIT. -/
theorem claim_C4 :
    (∀ (line t : String) (i : Nat), (t, i) ∈ findMoneyTokensWithIndex line →
      ∃ v, normalizeMoney t = some v) ∧
    (∀ (pre post : List String) (line : String),
      hasPhpMarker line = true →
      (findMoneyTokensWithIndex line).isEmpty = false →
      (∀ l ∈ post, hasPhpMarker l = false ∨ (findMoneyTokensWithIndex l).isEmpty = true) →
      extractMovementAmountFromPhpLine (pre ++ line :: post) =
        normalizeMoney (pickTok line).1 ∧
      (extractMovementAmountFromPhpLine (pre ++ line :: post)).isSome = true) ∧
    (∀ lines : List String,
      (∀ l ∈ lines, hasPhpMarker l = false ∨ (findMoneyTokensWithIndex l).isEmpty = true) →
      extractMovementAmountFromPhpLine lines = none) ∧
    (∀ (blockLines : List String) (dci : Option Nat) (row : LedgerRow),
      extractMovementAmountFromPhpLine blockLines = none →
      parseTransactionBlock blockLines dci = some row →
      row.PHP_DEBIT = some (.fin ⟨0, 0⟩) ∧ row.PHP_CREDIT = some (.fin ⟨0, 0⟩)) := by
  refine ⟨?_, ?_, ?_, parseTransactionBlock_no_movement⟩
  · intro line t i hmem
    obtain ⟨v, hv⟩ := normalizeMoney_moneyToken t.data (findMoneyTokens_shape line t i hmem)
    exact ⟨v, by rw [← hv]⟩
  · intro pre post line hp ht hpost
    have hrev : (pre ++ line :: post).reverse = post.reverse ++ line :: pre.reverse := by
      rw [List.reverse_append, List.reverse_cons, List.append_assoc, List.singleton_append]
    have hres : extractMovementAmountFromPhpLine (pre ++ line :: post) =
        normalizeMoney (pickTok line).1 := by
      unfold extractMovementAmountFromPhpLine
      rw [hrev, extractMovementAux_skip_all post.reverse (line :: pre.reverse)
        (fun l hl => hpost l (List.mem_reverse.mp hl))]
      exact extractMovementAux_hit line pre.reverse hp ht
    refine ⟨hres, ?_⟩
    obtain ⟨v, hv⟩ := normalizeMoney_pickTok line ht
    rw [hres, hv]
    rfl
  · intro lines h
    unfold extractMovementAmountFromPhpLine
    exact extractMovementAux_none lines.reverse (fun l hl => h l (List.mem_reverse.mp hl))


/-- Closed instance of C4: on a two-line block whose second line reads
`  1,234.5678  567.89 PHP 10,000.00`, the movement is the second-to-last
token of that line; a token of that line parses; and a block with no
PHP line yields a row with zero debit and credit. -/
theorem claim_C4_witness :
    (extractMovementAmountFromPhpLine
        (["01/02/2024 AB-1 first"] ++ "  1,234.5678  567.89 PHP 10,000.00" :: []) =
      normalizeMoney (pickTok "  1,234.5678  567.89 PHP 10,000.00").1 ∧
     (extractMovementAmountFromPhpLine
        (["01/02/2024 AB-1 first"] ++ "  1,234.5678  567.89 PHP 10,000.00" :: [])).isSome =
       true) ∧
    (∃ v, normalizeMoney "567.89" = some v) ∧
    (c4BlockRow.PHP_DEBIT = some (.fin ⟨0, 0⟩) ∧
     c4BlockRow.PHP_CREDIT = some (.fin ⟨0, 0⟩)) :=
  ⟨claim_C4.2.1 ["01/02/2024 AB-1 first"] [] "  1,234.5678  567.89 PHP 10,000.00"
      (by decide) (by decide) (by decide),
   claim_C4.1 "  1,234.5678  567.89 PHP 10,000.00" "567.89" 14 (by decide),
   claim_C4.2.2.2 ["01/02/2024 AB-1 first only"] none c4BlockRow (by decide) (by decide)⟩

end PV
